import Mathlib

/-!
Verification development for the kubectx-manager repository.

The Go sources are shallowly embedded as Lean definitions:
  * `internal/kubeconfig/kubeconfig.go` — data model, `RemoveContexts`,
    `hasValidCredentials`, `IsAuthValid`, `isClusterReachable`.
  * `internal/config/config.go` — whitelist glob pattern compilation and matching.
  * `cmd/root.go` — `findContextsToRemove` and the `runCleanup` effect trace.
  * `cmd/restore.go` — `analyzeRestoreConflicts`, `createSelectiveBackup`,
    `extractNameFromConflict`, `askUserAboutConflicts`,
    `shouldCreateBackupBeforeRestore`, `findBackups`, and the `runRestore`
    effect trace.

Modelling conventions:
  * Go pointers to entity records (`*Context`, `*Cluster`, `*User`) are embedded
    as plain values.  The Go code dereferences these pointers unconditionally on
    every path relevant to the claims, so documents with null entity payloads
    are outside the model.
  * Go maps built by `buildInternalMaps` are embedded as last-entry-wins
    association lookups over the backing lists (a later duplicate name
    overwrites an earlier one, exactly as repeated `m[k] = v` assignments do).
  * File-system and network effects (`os.Stat`, `filepath.Abs`, the HTTP probe)
    are oracle parameters collected in `AuthEnv`.
  * Interactive input is a parameter (the line read from stdin, plus a flag for
    a read error).
  * The `Preferences` and `Extensions` YAML passthrough fields are omitted:
    no embedded function reads them.
-/

namespace KubectxManager

/-- Single-quote character (U+0027), used by the conflict-description format
`kind 'name' (reason)` of `cmd/restore.go`. -/
def qc : Char := Char.ofNat 39

/-- String consisting of the single-quote character. -/
def qs : String := String.mk [qc]

/-! ## Data model (`internal/kubeconfig/kubeconfig.go`) -/

/-- `Context` struct: a named (cluster, user, namespace) triple.  The Go field
`Namespace` is called `nmspace` because `namespace` is a Lean keyword. -/
structure KContext where
  cluster : String
  user : String
  nmspace : String
deriving DecidableEq, Repr

/-- `Cluster` struct: connection data for one cluster. -/
structure KCluster where
  server : String
  certificateAuthorityData : String
  certificateAuthority : String
  insecureSkipTLSVerify : Bool
deriving DecidableEq, Repr

/-- `AuthProvider` struct: provider name plus an opaque config map
(embedded as an association list). -/
structure KAuthProvider where
  name : String
  config : List (String × String)
deriving DecidableEq, Repr

/-- `ExecEnvVar` struct. -/
structure KExecEnvVar where
  name : String
  value : String
deriving DecidableEq, Repr

/-- `ExecConfig` struct: exec-based credential plugin descriptor. -/
structure KExecConfig where
  apiVersion : String
  command : String
  args : List String
  env : List KExecEnvVar
deriving DecidableEq, Repr

/-- `User` struct: the credential fields of one user entry. -/
structure KUser where
  authProvider : Option KAuthProvider
  exec : Option KExecConfig
  clientCertificateData : String
  clientKeyData : String
  clientCertificate : String
  clientKey : String
  token : String
  username : String
  password : String
deriving DecidableEq, Repr

/-- `NamedContext` struct. -/
structure NamedContext where
  name : String
  context : KContext
deriving DecidableEq, Repr

/-- `NamedCluster` struct. -/
structure NamedCluster where
  name : String
  cluster : KCluster
deriving DecidableEq, Repr

/-- `NamedUser` struct. -/
structure NamedUser where
  name : String
  user : KUser
deriving DecidableEq, Repr

/-- `Config` struct: the kubeconfig document.  The derived lookup maps
(`contextMap` …) are not stored; they are recomputed by the lookup
functions below, which is observationally the rebuilt-after-mutation map. -/
structure Config where
  apiVersion : String
  kind : String
  currentContext : String
  contexts : List NamedContext
  clusters : List NamedCluster
  users : List NamedUser
deriving DecidableEq, Repr

/-- Last-entry-wins association lookup: the content a Go `map` holds after
inserting the pairs in list order. -/
def lastWins {α : Type} (name : String) : List (String × α) → Option α
  | [] => none
  | (k, v) :: rest =>
    match lastWins name rest with
    | some v' => some v'
    | none => if k = name then some v else none

/-- `Config.GetContext`: lookup in the rebuilt context map. -/
def Config.getContext (c : Config) (n : String) : Option KContext :=
  lastWins n (c.contexts.map fun nc => (nc.name, nc.context))

/-- `Config.GetCluster`: lookup in the rebuilt cluster map. -/
def Config.getCluster (c : Config) (n : String) : Option KCluster :=
  lastWins n (c.clusters.map fun nc => (nc.name, nc.cluster))

/-- `Config.GetUser`: lookup in the rebuilt user map. -/
def Config.getUser (c : Config) (n : String) : Option KUser :=
  lastWins n (c.users.map fun nu => (nu.name, nu.user))

/-- `Config.GetContextNames`: the context map's key set.  Go map iteration
order is unspecified, so the keys are listed in first-occurrence order and
all statements about them are set-level. -/
def Config.contextNames (c : Config) : List String :=
  (c.contexts.map fun nc => nc.name).dedup

/-! ## `RemoveContexts` (`internal/kubeconfig/kubeconfig.go` lines 221-275) -/

/-- Whether the removal loop clears `CurrentContext`: some removed context
entry bears the current-context name.  (In the Go loop the check
`config.CurrentContext == namedContext.Name` reads the possibly already
cleared field, but re-clearing an empty field is the identity, so the net
effect is this predicate on the pre-call value.) -/
def removedCurrent (c : Config) (names : List String) : Bool :=
  c.contexts.any fun nc => names.contains nc.name && c.currentContext == nc.name

/-- The contexts surviving the removal loop, in list order. -/
def remainingContexts (c : Config) (names : List String) : List NamedContext :=
  c.contexts.filter fun nc => !(names.contains nc.name)

/-- The `usedClusters` set collected from the surviving contexts. -/
def usedClusterB (remaining : List NamedContext) (n : String) : Bool :=
  remaining.any fun nc => nc.context.cluster == n

/-- The `usedUsers` set collected from the surviving contexts. -/
def usedUserB (remaining : List NamedContext) (n : String) : Bool :=
  remaining.any fun nc => nc.context.user == n

/-- The `CurrentContext` value after the removal loop's clearing and the
final "set a new current-context" step. -/
def updatedCurrent (c : Config) (names : List String)
    (remaining : List NamedContext) : String :=
  let cur1 := if removedCurrent c names then "" else c.currentContext
  match remaining with
  | [] => cur1
  | first :: _ => if cur1 = "" then first.name else cur1

/-- `RemoveContexts`: drop the named contexts, garbage-collect clusters and
users not referenced by a remaining context, fix up `CurrentContext`,
rebuild the maps (implicit here).  The Go function's `error` result is
always `nil`; the embedding returns the mutated document. -/
def RemoveContexts (c : Config) (names : List String) : Config :=
  { apiVersion := c.apiVersion
    kind := c.kind
    currentContext := updatedCurrent c names (remainingContexts c names)
    contexts := remainingContexts c names
    clusters := c.clusters.filter fun ncl => usedClusterB (remainingContexts c names) ncl.name
    users := c.users.filter fun nu => usedUserB (remainingContexts c names) nu.name }

/-! ## Pattern matcher (`internal/config/config.go` lines 71-93)

`compilePattern` escapes all regex metacharacters (`regexp.QuoteMeta`), turns
the escaped `\*` into `.*` and the escaped `\?` into `.`, and anchors with
`^`/`$`.  Because every metacharacter is escaped first, the compiled regex is
always an anchored concatenation of three kinds of atoms: a literal character,
`.` (from `?`) and `.*` (from `*`).  Under the default RE2 flags used by
`regexp.Compile`, `.` matches any rune except newline, and `^`/`$` match only
at the start/end of the text, so `MatchString` on the anchored pattern is a
full-string match.  The embedding represents the compiled regex by its atom
list and executes the full-string match directly. -/

/-- One atom of the compiled whitelist regex. -/
inductive GlobAtom where
  | lit (c : Char)
  | anyOne
  | anyStar
deriving DecidableEq, Repr

/-- The compiled atom of one pattern character. -/
def atomOf (c : Char) : GlobAtom :=
  if c = '*' then GlobAtom.anyStar else if c = '?' then GlobAtom.anyOne else GlobAtom.lit c

/-- `compilePattern`: the atom list of the compiled anchored regex. -/
def compilePattern (p : String) : List GlobAtom :=
  p.data.map atomOf

/-- Match loop for a leading `.*` atom: try the continuation at every suffix,
consuming only non-newline characters (RE2 `.` semantics). -/
def starLoop (f : List Char → Bool) : List Char → Bool
  | [] => f []
  | d :: s => f (d :: s) || (!(d == Char.ofNat 10) && starLoop f s)

/-- Full-string matching of a compiled atom list against a character list,
with RE2 semantics for `.` (any character except newline). -/
def reMatch : List GlobAtom → List Char → Bool
  | [], s => s.isEmpty
  | GlobAtom.lit c :: p, s =>
    match s with
    | [] => false
    | d :: s' => c == d && reMatch p s'
  | GlobAtom.anyOne :: p, s =>
    match s with
    | [] => false
    | d :: s' => !(d == Char.ofNat 10) && reMatch p s'
  | GlobAtom.anyStar :: p, s => starLoop (reMatch p) s

/-- `Config.MatchesWhitelist` (the whitelist is carried as its pattern list):
true iff some compiled pattern fully matches the name. -/
def matchesWhitelist (whitelist : List String) (contextName : String) : Bool :=
  whitelist.any fun p => reMatch (compilePattern p) contextName.data

/-- Star loop of the claim's semantics: the continuation may resume at any
suffix, with no restriction on the skipped characters. -/
def starLoopAny (f : List Char → Bool) : List Char → Bool
  | [] => f []
  | d :: s => f (d :: s) || starLoopAny f s

/-- Modelled from the spec: the claim's glob semantics, in which `*` matches
zero or more of ANY character and `?` exactly one of ANY character, all other
characters literally, anchored at both ends.  Defined independently of
`compilePattern`/`reMatch` to compare the code against the specified
semantics. -/
def globSpec : List Char → List Char → Bool
  | [], s => s.isEmpty
  | c :: p, s =>
    if c = '*' then starLoopAny (globSpec p) s
    else
      match s with
      | [] => false
      | d :: s' => (if c = '?' then true else c == d) && globSpec p s'

/-! ## Auth reachability prober (`internal/kubeconfig/kubeconfig.go` lines 277-399) -/

/-- Oracles for the ambient effects of the prober: `os.Stat` success,
`filepath.Abs` success, and the HTTP probe's outcome (`none` = transport
error, `some code` = an HTTP response with that status code). -/
structure AuthEnv where
  statOk : String → Bool
  absOk : String → Bool
  response : KCluster → KUser → Option Nat

/-- `hasValidCredentials`: the derived credential-presence predicate.  Note
the Go `if user.AuthProvider != nil { return len(...) > 0 }` returns from
inside the branch, so a present auth-provider short-circuits past the exec
check. -/
def hasValidCredentials (env : AuthEnv) (u : KUser) : Bool :=
  if u.token != "" then true
  else if u.clientCertificateData != "" || u.clientCertificate != "" then true
  else if u.username != "" && u.password != "" then true
  else
    match u.authProvider with
    | some ap => ap.config.length > 0
    | none =>
      match u.exec with
      | some e =>
        if e.command != "" then env.statOk e.command || env.absOk e.command else false
      | none => false

/-- `isClusterReachable`: empty server short-circuits to false; otherwise a
transport error is false and a response is reachable iff its status code is
below 500. -/
def isClusterReachable (env : AuthEnv) (cl : KCluster) (u : KUser) : Bool :=
  if cl.server = "" then false
  else
    match env.response cl u with
    | none => false
    | some code => code < 500

/-- `IsAuthValid`: resolve context, user and cluster; false on any missing
piece; then credentials must be present and the cluster reachable. -/
def IsAuthValid (env : AuthEnv) (c : Config) (contextName : String) : Bool :=
  match c.getContext contextName with
  | none => false
  | some ctx =>
    match c.getUser ctx.user with
    | none => false
    | some u =>
      match c.getCluster ctx.cluster with
      | none => false
      | some cl => hasValidCredentials env u && isClusterReachable env cl u

/-- Modelled from the spec: the credential-presence disjunction exactly as
claim C4 states it ("any one satisfied form suffices regardless of the
presence of the other forms"), for comparison with `hasValidCredentials`. -/
def hasCredentialsSpec (env : AuthEnv) (u : KUser) : Bool :=
  (u.token != "") ||
  (u.clientCertificateData != "" || u.clientCertificate != "") ||
  (u.username != "" && u.password != "") ||
  (match u.authProvider with
   | some ap => ap.config.length > 0
   | none => false) ||
  (match u.exec with
   | some e => env.statOk e.command || env.absOk e.command
   | none => false)

/-! ## Cleanup orchestrator (`cmd/root.go` lines 82-179) -/

/-- `findContextsToRemove`: a context name is kept when it is whitelisted, or
when auth-checking is enabled and its auth is valid; otherwise it is marked
for removal.  Names come from the context map's key set (set-level order). -/
def findContextsToRemove (kc : Config) (whitelist : List String) (authCheck : Bool)
    (env : AuthEnv) : List String :=
  kc.contextNames.filter fun n =>
    !(matchesWhitelist whitelist n) && !(authCheck && IsAuthValid env kc n)

/-- Observable effects of one `runCleanup` invocation, in program order.
Log output is not modelled. -/
inductive CleanupEvent where
  | backupCreated
  | removalComputed (toRemove : List String)
  | contextsRemoved (toRemove : List String)
  | kubeconfigSaved
  | failed
deriving DecidableEq, Repr

/-- `runCleanup` as an effect trace.  `cfgLoad` is the whitelist load result,
`kcLoad` the kubeconfig load result, `backupOk` whether `CreateBackup`
succeeds, `confirmAnswer` the interactive confirmation outcome, `saveOk`
whether the final save succeeds. -/
def runCleanup (dryRun interactive authCheck : Bool) (cfgLoad : Option (List String))
    (kcLoad : Option Config) (backupOk : Bool) (env : AuthEnv)
    (confirmAnswer : Bool) (saveOk : Bool) : List CleanupEvent :=
  match cfgLoad with
  | none => [CleanupEvent.failed]
  | some whitelist =>
    match kcLoad with
    | none => [CleanupEvent.failed]
    | some kc =>
      if !dryRun && !backupOk then [CleanupEvent.failed]
      else
        let pre : List CleanupEvent :=
          if dryRun then [] else [CleanupEvent.backupCreated]
        let toRemove := findContextsToRemove kc whitelist authCheck env
        let post : List CleanupEvent :=
          if toRemove = [] then []
          else if dryRun then []
          else if interactive && !confirmAnswer then []
          else
            CleanupEvent.contextsRemoved toRemove ::
              (if saveOk then [CleanupEvent.kubeconfigSaved] else [CleanupEvent.failed])
        pre ++ CleanupEvent.removalComputed toRemove :: post

/-! ## Restore conflict engine (`cmd/restore.go`) -/

/-- `contextsEqual` (restore.go lines 345-347). -/
def contextsEqual (a b : KContext) : Bool :=
  a.cluster == b.cluster && a.user == b.user && a.nmspace == b.nmspace

/-- `clustersEqual` (restore.go lines 349-354). -/
def clustersEqual (a b : KCluster) : Bool :=
  a.server == b.server &&
  a.certificateAuthorityData == b.certificateAuthorityData &&
  a.certificateAuthority == b.certificateAuthority &&
  a.insecureSkipTLSVerify == b.insecureSkipTLSVerify

/-- `usersEqual` (restore.go lines 356-364): compares the seven string
credential fields only; `AuthProvider` and `Exec` are not compared. -/
def usersEqual (a b : KUser) : Bool :=
  a.clientCertificateData == b.clientCertificateData &&
  a.clientKeyData == b.clientKeyData &&
  a.clientCertificate == b.clientCertificate &&
  a.clientKey == b.clientKey &&
  a.token == b.token &&
  a.username == b.username &&
  a.password == b.password

/-- Conflict description for a context, `fmt.Sprintf("context '%s' (different configuration)", name)`. -/
def mkContextConflict (n : String) : String :=
  "context " ++ qs ++ n ++ qs ++ " (different configuration)"

/-- Conflict description for a cluster, `fmt.Sprintf("cluster '%s' (different server/auth)", name)`. -/
def mkClusterConflict (n : String) : String :=
  "cluster " ++ qs ++ n ++ qs ++ " (different server/auth)"

/-- Conflict description for a user, `fmt.Sprintf("user '%s' (different credentials)", name)`. -/
def mkUserConflict (n : String) : String :=
  "user " ++ qs ++ n ++ qs ++ " (different credentials)"

/-- The comparison step shared by the three loops of `analyzeRestoreConflicts`,
over a (name, entity) pair of one backup entry: emit a conflict description
when the name resolves in the current document's map and the two entities
differ under the loop's field-wise equality. -/
def conflictStep {β : Type} (mk : String → String) (eqF : β → β → Bool)
    (lookup : String → Option β) (p : String × β) : Option String :=
  match lookup p.1 with
  | some cv => if !(eqF cv p.2) then some (mk p.1) else none
  | none => none

/-- `analyzeRestoreConflicts` (restore.go lines 298-343): for every backup
entity whose name also resolves in the current document, emit a conflict
description when the two entities differ under the field-wise equality.
Each Go loop iterates the backup entries, viewed here as (name, entity)
pairs, against the current document's map; the inline
`currentClusters`/`currentUsers` maps Go builds are the same last-entry-wins
lookup as `Config.getCluster`/`Config.getUser`. -/
def analyzeRestoreConflicts (current backup : Config) : List String :=
  ((backup.contexts.map fun nc => (nc.name, nc.context)).filterMap
    (conflictStep mkContextConflict contextsEqual current.getContext)) ++
  ((backup.clusters.map fun nc => (nc.name, nc.cluster)).filterMap
    (conflictStep mkClusterConflict clustersEqual current.getCluster)) ++
  ((backup.users.map fun nu => (nu.name, nu.user)).filterMap
    (conflictStep mkUserConflict usersEqual current.getUser))

/-- Index of the first occurrence of `sub` in `s` (`strings.Index`; `none`
stands for Go's `-1`).  `strings.Index(s, "")` is `0`. -/
def firstIndex : List Char → List Char → Option Nat
  | [], sub => if List.isPrefixOf sub [] then some 0 else none
  | c :: rest, sub =>
    if List.isPrefixOf sub (c :: rest) then some 0
    else (firstIndex rest sub).map (· + 1)

/-- `strings.Contains`. -/
def strContains (s sub : List Char) : Bool :=
  (firstIndex s sub).isSome

/-- `extractNameFromConflict` (restore.go lines 478-492): find the marker
`itemType + " '"` (here spelled as its character list); on success take the
characters after it up to the next single quote.  `none` plays Go's `-1`. -/
def extractNameFromConflict (conflict itemType : String) : String :=
  match firstIndex conflict.data (itemType.data ++ [' ', qc]) with
  | none => ""
  | some i =>
    match firstIndex (conflict.data.drop (i + (itemType.data ++ [' ', qc]).length)) [qc] with
    | none => ""
    | some e =>
      String.mk ((conflict.data.drop (i + (itemType.data ++ [' ', qc]).length)).take e)

/-- One step of the conflict-classification loop of `createSelectiveBackup`
(restore.go lines 422-439).  The accumulator carries the conflicting
context, cluster and user name sets (Go `map[string]bool`, embedded as
lists queried by membership). -/
def addConflict (cur : Config) (acc : List String × List String × List String)
    (conflict : String) : List String × List String × List String :=
  if strContains conflict.data ("context ".data ++ [qc]) then
    match cur.getContext (extractNameFromConflict conflict "context") with
    | some ctx =>
      (extractNameFromConflict conflict "context" :: acc.1,
        ctx.cluster :: acc.2.1, ctx.user :: acc.2.2)
    | none => (extractNameFromConflict conflict "context" :: acc.1, acc.2.1, acc.2.2)
  else if strContains conflict.data ("cluster ".data ++ [qc]) then
    (acc.1, extractNameFromConflict conflict "cluster" :: acc.2.1, acc.2.2)
  else if strContains conflict.data ("user ".data ++ [qc]) then
    (acc.1, acc.2.1, extractNameFromConflict conflict "user" :: acc.2.2)
  else acc

/-- The three conflicting-name sets of `createSelectiveBackup`. -/
def conflictSets (cur : Config) (conflicts : List String) :
    List String × List String × List String :=
  conflicts.foldl (addConflict cur) ([], [], [])

/-- The document `createSelectiveBackup` (restore.go lines 401-476) builds
and saves: the current document's entries filtered by the conflicting-name
sets.  `CurrentContext` is left at its zero value. -/
def createSelectiveBackupConfig (cur : Config) (conflicts : List String) : Config :=
  let sets := conflictSets cur conflicts
  { apiVersion := cur.apiVersion
    kind := cur.kind
    currentContext := ""
    contexts := cur.contexts.filter fun nc => sets.1.contains nc.name
    clusters := cur.clusters.filter fun ncl => sets.2.1.contains ncl.name
    users := cur.users.filter fun nu => sets.2.2.contains nu.name }

/-- `strings.ToLower`.  Character-wise lowercasing; `Char.toLower` agrees
with Go on ASCII, which covers every recognized answer word. -/
def goToLower (s : String) : String :=
  String.mk (s.data.map Char.toLower)

/-- `strings.TrimSpace`: drop whitespace from both ends. -/
def goTrim (s : String) : String :=
  String.mk (((s.data.dropWhile Char.isWhitespace).reverse.dropWhile Char.isWhitespace).reverse)

/-- `askUserAboutConflicts` (restore.go lines 366-399) as a function of the
stdin read outcome: a read error yields cancel, otherwise the lowercased,
trimmed line is mapped to one of the four choices, anything unrecognized
to cancel. -/
def askUserAboutConflicts (readErr : Bool) (input : String) : String :=
  if readErr then "cancel"
  else
    let response := goTrim (goToLower input)
    if response = "n" || response = "no" then "none"
    else if response = "s" || response = "selective" then "selective"
    else if response = "f" || response = "full" then "full"
    else if response = "c" || response = "cancel" then "cancel"
    else "cancel"

/-- `shouldCreateBackupBeforeRestore` (restore.go lines 260-296): result is
(shouldBackup, reason, conflicts). -/
def shouldCreateBackupBeforeRestore (currentLoad backupLoad : Option Config)
    (readErr : Bool) (answer : String) : Bool × String × List String :=
  match currentLoad with
  | none => (true, "could not load current kubeconfig for analysis", [])
  | some cur =>
    match backupLoad with
    | none => (true, "could not load backup kubeconfig for analysis", [])
    | some bak =>
      let conflicts := analyzeRestoreConflicts cur bak
      if conflicts.isEmpty then
        (false, "no conflicts detected - backup contexts can be safely merged", [])
      else
        let choice := askUserAboutConflicts readErr answer
        if choice = "none" then (false, "user chose to proceed without backup", [])
        else if choice = "selective" then
          (true, "user chose selective backup of conflicting contexts", conflicts)
        else if choice = "full" then (true, "user chose full backup", [])
        else (false, "restore canceled by user", [])

/-! ## Backup catalog (`cmd/restore.go` lines 164-214) -/

/-- Parsed backup timestamp fields. -/
structure Timestamp where
  y : Nat
  mo : Nat
  d : Nat
  h : Nat
  mi : Nat
  s : Nat
deriving DecidableEq, Repr

/-- Gregorian leap-year rule, as `time.Date` uses. -/
def isLeap (y : Nat) : Bool :=
  (y % 4 == 0 && y % 100 != 0) || y % 400 == 0

/-- Number of days in a month. -/
def daysInMonth (y m : Nat) : Nat :=
  if m = 2 then (if isLeap y then 29 else 28)
  else if m = 4 || m = 6 || m = 9 || m = 11 then 30
  else 31

/-- Decimal value of a digit character. -/
def digit? (c : Char) : Option Nat :=
  if c.isDigit then some (c.toNat - 48) else none

/-- Two fixed-width decimal digits. -/
def num2 (a b : Char) : Option Nat := do
  let x ← digit? a
  let y ← digit? b
  pure (10 * x + y)

/-- Four fixed-width decimal digits. -/
def num4 (a b c d : Char) : Option Nat := do
  let x ← num2 a b
  let y ← num2 c d
  pure (100 * x + y)

/-- `time.Parse("20060102-150405", s)`: exactly 15 characters, fixed-width
digit fields around a literal `-`, with the range checks `time.Parse`
performs (month 1-12, day 1-days-in-month, hour below 24, minute and second
below 60).  Result `none` is a parse error. -/
def parseBackupTime (s : List Char) : Option Timestamp :=
  match s with
  | [y1, y2, y3, y4, m1, m2, d1, d2, dash, h1, h2, i1, i2, s1, s2] =>
    match num4 y1 y2 y3 y4, num2 m1 m2, num2 d1 d2, num2 h1 h2, num2 i1 i2, num2 s1 s2 with
    | some yr, some mo, some dd, some hh, some mi, some ss =>
      if dash == '-' && decide (1 ≤ mo) && decide (mo ≤ 12) && decide (1 ≤ dd) &&
          decide (dd ≤ daysInMonth yr mo) && decide (hh ≤ 23) && decide (mi ≤ 59) &&
          decide (ss ≤ 59) then
        some ⟨yr, mo, dd, hh, mi, ss⟩
      else none
    | _, _, _, _, _, _ => none
  | _ => none

/-- Order-embedding of a valid timestamp into `Nat`: field-lexicographic,
which is exactly how the corresponding `time.Time` values compare under
`Time.After`. -/
def timeKey (t : Timestamp) : Nat :=
  ((((t.y * 100 + t.mo) * 100 + t.d) * 100 + t.h) * 100 + t.mi) * 100 + t.s

/-- `Backup` struct (restore.go lines 166-171); `Path` and `TimeStr` are
derived display fields and are not modelled. -/
structure BackupFile where
  name : String
  time : Timestamp
deriving DecidableEq, Repr

/-- One `os.ReadDir` entry. -/
structure DirEntry where
  name : String
  isDir : Bool
deriving DecidableEq, Repr

/-- Descending insertion by parsed timestamp. -/
def insertByTimeDesc (b : BackupFile) : List BackupFile → List BackupFile
  | [] => [b]
  | x :: xs => if timeKey x.time < timeKey b.time then b :: x :: xs else x :: insertByTimeDesc b xs

/-- Sort newest-first.  Go uses `sort.Slice` with the strict comparator
`Time.After`; on a real directory listing all parsed timestamps are distinct
(distinct names with a fixed-width canonical format), so the descending
arrangement is unique and the choice of sorting algorithm is immaterial. -/
def sortByTimeDesc (l : List BackupFile) : List BackupFile :=
  l.foldr insertByTimeDesc []

/-- `strings.HasPrefix` on character lists. -/
def startsWithData : List Char → List Char → Bool
  | [], _ => true
  | _ :: _, [] => false
  | p :: ps, s :: ss => p == s && startsWithData ps ss

/-- The per-entry step of the `findBackups` loop: skip directories, demand
the `<base>.backup.` name prefix, and parse the remainder as a timestamp
(`strings.TrimPrefix` after a positive `strings.HasPrefix` test is
`List.drop` of the prefix length). -/
def toBackup? (base : String) (e : DirEntry) : Option BackupFile :=
  if e.isDir then none
  else if startsWithData (base ++ ".backup.").data e.name.data then
    match parseBackupTime (e.name.data.drop (base ++ ".backup.").data.length) with
    | some t => some ⟨e.name, t⟩
    | none => none
  else none

/-- `findBackups` (restore.go lines 173-214) on a directory listing: keep the
non-directory entries named `<base>.backup.<timestamp>` whose timestamp
parses, sorted newest first. -/
def findBackups (base : String) (entries : List DirEntry) : List BackupFile :=
  sortByTimeDesc (entries.filterMap (toBackup? base))

/-! ## The `runRestore` flow (`cmd/restore.go` lines 55-162) -/

/-- Observable effects of one `runRestore` invocation, in program order. -/
inductive RestoreEvent where
  | noBackupsNotice
  | canceledAtSelection
  | canceledAtConfirmation
  | createdSelectiveBackup
  | createdFullBackup
  | skippedBackup (reason : String)
  | overwroteKubeconfig
  | deletedBackupFile
  | deleteFailedWarning
  | keptBackupFile
  | failed
deriving DecidableEq, Repr

/-- `runRestore` as an effect trace.  `backups` is the `findBackups` result;
`selection` is the value `getUserSelection` returns (it re-prompts until the
value is `0` or a valid 1-based index); `currentLoad`/`backupLoad` are the
two `kubeconfig.Load` outcomes inside `shouldCreateBackupBeforeRestore`;
`readErr`/`conflictAnswer` feed `askUserAboutConflicts`; the `*Ok` flags are
the outcomes of the selective backup save, the full backup copy, the
restore overwrite, and the backup file deletion. -/
def runRestore (backups : List BackupFile) (selection : Nat) (confirmAnswer : Bool)
    (noBackup keepBackup : Bool) (currentLoad backupLoad : Option Config)
    (readErr : Bool) (conflictAnswer : String)
    (selectiveOk fullOk restoreOk removeOk : Bool) : List RestoreEvent :=
  if backups.isEmpty then [RestoreEvent.noBackupsNotice]
  else if selection = 0 then [RestoreEvent.canceledAtSelection]
  else if !confirmAnswer then [RestoreEvent.canceledAtConfirmation]
  else
    let backupEvents : Option (List RestoreEvent) :=
      if noBackup then some [RestoreEvent.skippedBackup "--no-backup flag specified"]
      else
        let r := shouldCreateBackupBeforeRestore currentLoad backupLoad readErr conflictAnswer
        if r.1 then
          if !r.2.2.isEmpty then
            if selectiveOk then some [RestoreEvent.createdSelectiveBackup] else none
          else
            if fullOk then some [RestoreEvent.createdFullBackup] else none
        else some [RestoreEvent.skippedBackup r.2.1]
    match backupEvents with
    | none => [RestoreEvent.failed]
    | some evs =>
      if !restoreOk then evs ++ [RestoreEvent.failed]
      else
        evs ++ [RestoreEvent.overwroteKubeconfig] ++
          (if !keepBackup then
            [if removeOk then RestoreEvent.deletedBackupFile else RestoreEvent.deleteFailedWarning]
          else [RestoreEvent.keptBackupFile])

/-! ## Theorems -/

/-- Claim C4 (corrected).  Characterization of `hasValidCredentials`: the
token, certificate and basic-auth forms and the auth-provider form behave
as disjuncts, but the exec form is only consulted when no auth-provider
descriptor is present, because the Go auth-provider branch returns from
inside the `if`.  (This is the claim's disjunction amended by the
auth-provider short-circuit.) -/
theorem hasValidCredentials_characterization (env : AuthEnv) (u : KUser) :
    hasValidCredentials env u = true ↔
      u.token ≠ "" ∨ u.clientCertificateData ≠ "" ∨ u.clientCertificate ≠ "" ∨
      (u.username ≠ "" ∧ u.password ≠ "") ∨
      (∃ ap, u.authProvider = some ap ∧ ap.config ≠ []) ∨
      (u.authProvider = none ∧ ∃ e, u.exec = some e ∧ e.command ≠ "" ∧
        (env.statOk e.command = true ∨ env.absOk e.command = true)) := by
  rcases u with ⟨ap, ex, ccd, ckd, cc, ck, tok, un, pw⟩
  rcases ap with _ | ap <;> rcases ex with _ | e <;>
    simp [hasValidCredentials, List.length_pos] <;> tauto

/-- User with an auth-provider descriptor carrying an empty config map and a
usable exec credential plugin. -/
def c4User : KUser :=
  { authProvider := some ⟨"oidc", []⟩
    exec := some ⟨"client.authentication.k8s.io/v1", "/usr/bin/kubelogin", [], []⟩
    clientCertificateData := ""
    clientKeyData := ""
    clientCertificate := ""
    clientKey := ""
    token := ""
    username := ""
    password := "" }

/-- Environment in which every command resolves. -/
def c4Env : AuthEnv :=
  { statOk := fun _ => true
    absOk := fun _ => true
    response := fun _ _ => none }

/-- Claim C4 counterexample: the claim's disjunction ("any one satisfied form
suffices regardless of the presence of the other forms") calls this user
credentialed through its exec form, but `hasValidCredentials` returns false
because the present auth-provider with an empty config map short-circuits. -/
theorem hasValidCredentials_not_spec_disjunction :
    hasValidCredentials c4Env c4User = false ∧ hasCredentialsSpec c4Env c4User = true := by
  constructor <;> rfl

/-- Claim C10 (confirmed).  With dry-run disabled and both loads successful,
`runCleanup`'s trace starts with the backup creation, strictly before the
removal-set computation; and when the removal set is empty the trace is
exactly backup-then-compute — no contexts are removed and the kubeconfig is
never saved, yet the backup file was produced. -/
theorem runCleanup_backs_up_before_removal (interactive authCheck : Bool)
    (wl : List String) (kc : Config) (env : AuthEnv) (confirmAnswer saveOk : Bool) :
    (runCleanup false interactive authCheck (some wl) (some kc) true env
        confirmAnswer saveOk).take 2
      = [CleanupEvent.backupCreated,
         CleanupEvent.removalComputed (findContextsToRemove kc wl authCheck env)]
    ∧ (findContextsToRemove kc wl authCheck env = [] →
        runCleanup false interactive authCheck (some wl) (some kc) true env
            confirmAnswer saveOk
          = [CleanupEvent.backupCreated, CleanupEvent.removalComputed []]) := by
  constructor
  · simp [runCleanup]
  · intro h
    simp [runCleanup, h]

/-- Current kubeconfig document of the C1 failing input: one user `uu` with
token `tok1`. -/
def c1Cur : Config :=
  ⟨"v1", "Config", "", [], [], [⟨"uu", ⟨none, none, "", "", "", "", "tok1", "", ""⟩⟩]⟩

/-- Selected-backup document of the C1 failing input: the same user `uu`
with token `tok2`, so conflict analysis reports exactly one user conflict
and the conflict-choice prompt is reached. -/
def c1Bak : Config :=
  ⟨"v1", "Config", "", [], [], [⟨"uu", ⟨none, none, "", "", "", "", "tok2", "", ""⟩⟩]⟩

/-- The C1 failing run: one backup found, selection 1, restore confirmed,
no skip flags, both documents load, and the conflict-choice answer is `c`
(cancel). -/
def c1Trace : List RestoreEvent :=
  runRestore [⟨"config.backup.20231124-120000", ⟨2023, 11, 24, 12, 0, 0⟩⟩]
    1 true false false (some c1Cur) (some c1Bak) false "c" true true true true

/-- Claim C1 (code_bug).  Evaluating the embedded `runRestore` at the failing
input: the conflict-choice step is reached and answered `c` (cancel), the
run reports "restore canceled by user" — and then still overwrites the live
kubeconfig and deletes the consumed backup file, contradicting the prompt's
own "Cancel restore" option and the claim's abort requirement.  The same
trace results from any unrecognized answer. -/
theorem runRestore_cancel_choice_still_overwrites :
    c1Trace =
      [RestoreEvent.skippedBackup "restore canceled by user",
       RestoreEvent.overwroteKubeconfig,
       RestoreEvent.deletedBackupFile] := by
  decide

/-- Document whose current-context is empty and which has one context. -/
def c5Doc : Config := ⟨"v1", "Config", "", [⟨"a", ⟨"c", "u", ""⟩⟩], [], []⟩

/-- Claim C5 counterexample: removing the empty name set leaves the
current-context `""` outside the removed names, yet `RemoveContexts`
changes the field (to the first context's name), refuting "when the
pre-removal current-context is not among the removed names, the
current-context field is left unchanged". -/
theorem removeContexts_changes_unremoved_current :
    c5Doc.currentContext ∉ ([] : List String) ∧
    (RemoveContexts c5Doc []).currentContext ≠ c5Doc.currentContext := by
  constructor
  · simp
  · decide

/-- Claim C5 (corrected).  Full characterization of the current-context
update: the removal loop clears the field iff some removed context entry
bore the current-context's name (`removedCurrent`); afterwards, when
contexts remain and the field is empty — whether cleared by the removal or
already empty beforehand — it is set to the first remaining context's name;
a non-empty current-context borne by no removed entry is unchanged. -/
theorem removeContexts_currentContext_spec (c : Config) (names : List String) :
    ((RemoveContexts c names).contexts = [] →
      (RemoveContexts c names).currentContext =
        (if removedCurrent c names then "" else c.currentContext))
    ∧ (∀ first rest, (RemoveContexts c names).contexts = first :: rest →
        (RemoveContexts c names).currentContext =
          (if removedCurrent c names ∨ c.currentContext = "" then first.name
           else c.currentContext))
    ∧ (removedCurrent c names = false → c.currentContext ≠ "" →
        (RemoveContexts c names).currentContext = c.currentContext) := by
  refine ⟨?_, ?_, ?_⟩
  · intro h
    simp only [RemoveContexts] at h ⊢
    rw [h]
    rfl
  · intro first rest h
    simp only [RemoveContexts] at h ⊢
    rw [h]
    by_cases hc : c.currentContext = "" <;> rcases hr : removedCurrent c names <;>
      simp [updatedCurrent, hr, hc]
  · intro hr hc
    simp only [RemoveContexts, updatedCurrent, hr, hc]
    split <;> simp [hc]

/-- Two kubeconfig documents with equal fields are equal. -/
theorem Config.ext' (a b : Config) (h1 : a.apiVersion = b.apiVersion) (h2 : a.kind = b.kind)
    (h3 : a.currentContext = b.currentContext) (h4 : a.contexts = b.contexts)
    (h5 : a.clusters = b.clusters) (h6 : a.users = b.users) : a = b := by
  cases a
  cases b
  simp_all

/-- Filtering the surviving contexts again removes nothing. -/
theorem remainingContexts_idem (c : Config) (names : List String) :
    remainingContexts (RemoveContexts c names) names = remainingContexts c names := by
  refine List.filter_eq_self.mpr fun a ha => ?_
  have ha' : a ∈ List.filter (fun nc => !(names.contains nc.name)) c.contexts := ha
  exact (List.mem_filter.mp ha').2

/-- No surviving context bears a removed name, so a second removal pass never
clears the current-context. -/
theorem removedCurrent_removeContexts (c : Config) (names : List String) :
    removedCurrent (RemoveContexts c names) names = false := by
  refine List.any_eq_false.mpr fun nc hnc => ?_
  have hnc' : nc ∈ List.filter (fun nc => !(names.contains nc.name)) c.contexts := hnc
  have hkeep : (!(names.contains nc.name)) = true := (List.mem_filter.mp hnc').2
  simp only [Bool.not_eq_true'] at hkeep
  have hmem : nc.name ∉ names := by simpa using hkeep
  simp [hmem]

/-- Claim C6 (confirmed).  `RemoveContexts` is idempotent — applying it twice
with the same name set yields the same document as applying it once — and the
orphan cleanup never drops a cluster or user referenced by a surviving
context. -/
theorem removeContexts_idempotent_preserves (c : Config) (names : List String) :
    RemoveContexts (RemoveContexts c names) names = RemoveContexts c names
    ∧ (∀ nc ∈ (RemoveContexts c names).contexts,
        (∀ ncl ∈ c.clusters, ncl.name = nc.context.cluster →
          ncl ∈ (RemoveContexts c names).clusters)
        ∧ (∀ nu ∈ c.users, nu.name = nc.context.user →
          nu ∈ (RemoveContexts c names).users)) := by
  constructor
  · refine Config.ext' _ _ rfl rfl ?_ (remainingContexts_idem c names) ?_ ?_
    · show updatedCurrent (RemoveContexts c names) names
          (remainingContexts (RemoveContexts c names) names)
        = (RemoveContexts c names).currentContext
      rw [remainingContexts_idem]
      show updatedCurrent (RemoveContexts c names) names (remainingContexts c names)
        = updatedCurrent c names (remainingContexts c names)
      simp only [updatedCurrent, removedCurrent_removeContexts c names]
      rcases hcase : remainingContexts c names with _ | ⟨first, rest⟩
      · simp [RemoveContexts, updatedCurrent, hcase]
      · show (if (RemoveContexts c names).currentContext = "" then first.name
            else (RemoveContexts c names).currentContext) = _
        simp only [RemoveContexts, updatedCurrent, hcase]
        by_cases h1 : (if removedCurrent c names = true then "" else c.currentContext) = "" <;>
          simp [h1]
    · show List.filter
          (fun ncl => usedClusterB (remainingContexts (RemoveContexts c names) names) ncl.name)
          (RemoveContexts c names).clusters
        = (RemoveContexts c names).clusters
      rw [remainingContexts_idem]
      refine List.filter_eq_self.mpr fun a ha => ?_
      have ha' : a ∈ List.filter
          (fun ncl => usedClusterB (remainingContexts c names) ncl.name) c.clusters := ha
      exact (List.mem_filter.mp ha').2
    · show List.filter
          (fun nu => usedUserB (remainingContexts (RemoveContexts c names) names) nu.name)
          (RemoveContexts c names).users
        = (RemoveContexts c names).users
      rw [remainingContexts_idem]
      refine List.filter_eq_self.mpr fun a ha => ?_
      have ha' : a ∈ List.filter
          (fun nu => usedUserB (remainingContexts c names) nu.name) c.users := ha
      exact (List.mem_filter.mp ha').2
  · intro nc hnc
    constructor
    · intro ncl hncl hname
      refine List.mem_filter.mpr ⟨hncl, ?_⟩
      refine List.any_eq_true.mpr ⟨nc, hnc, ?_⟩
      simp [hname]
    · intro nu hnu hname
      refine List.mem_filter.mpr ⟨hnu, ?_⟩
      refine List.any_eq_true.mpr ⟨nc, hnc, ?_⟩
      simp [hname]

/-- Environment for the cleanup scenario: no credentials resolve and no
cluster responds (irrelevant there, since auth-checking is disabled). -/
def c8Env : AuthEnv :=
  { statOk := fun _ => false
    absOk := fun _ => false
    response := fun _ _ => none }

/-- The spec's cleanup scenario document: five contexts named
production-cluster, production-backup, staging-cluster, development-cluster,
test-cluster. -/
def c8Doc : Config :=
  ⟨"v1", "Config", "production-cluster",
   [⟨"production-cluster", ⟨"c1", "u1", ""⟩⟩,
    ⟨"production-backup", ⟨"c1", "u1", ""⟩⟩,
    ⟨"staging-cluster", ⟨"c2", "u2", ""⟩⟩,
    ⟨"development-cluster", ⟨"c3", "u3", ""⟩⟩,
    ⟨"test-cluster", ⟨"c4", "u4", ""⟩⟩],
   [], []⟩

/-- Claim C8 (confirmed).  A context name is marked for removal iff it
matches no whitelist pattern and (auth-checking is disabled or its auth is
invalid); and on the spec's scenario — whitelist `production-*` and
`staging-cluster`, auth-check disabled — the removal set is exactly
development-cluster and test-cluster. -/
theorem findContextsToRemove_spec :
    (∀ (kc : Config) (wl : List String) (authCheck : Bool) (env : AuthEnv) (n : String),
      n ∈ findContextsToRemove kc wl authCheck env ↔
        n ∈ kc.contextNames ∧ matchesWhitelist wl n = false ∧
          (authCheck = true → IsAuthValid env kc n = false))
    ∧ findContextsToRemove c8Doc ["production-*", "staging-cluster"] false c8Env
        = ["development-cluster", "test-cluster"] := by
  constructor
  · intro kc wl ac env n
    rcases ac <;> simp [findContextsToRemove, List.mem_filter]
  · decide

/-! ### Backup catalog lemmas -/

/-- Descending comparison on parsed backup timestamps. -/
def descByTime (a b : BackupFile) : Prop :=
  timeKey b.time ≤ timeKey a.time

/-- A shared character-list head cancels in the prefix test. -/
theorem startsWithData_append (a b c : List Char) :
    startsWithData (a ++ b) (a ++ c) = startsWithData b c := by
  induction a with
  | nil => rfl
  | cons x xs ih => simp [startsWithData, ih]

/-- A name built with the `.selective-backup.` suffix never passes the
`.backup.` prefix test of the catalog scan. -/
theorem selective_name_no_backup_match (base ts : String) :
    startsWithData (base ++ ".backup.").data (base ++ ".selective-backup." ++ ts).data
      = false := by
  have h1 : (base ++ ".backup.").data = base.data ++ ".backup.".data := rfl
  have h2 : (base ++ ".selective-backup." ++ ts).data
      = base.data ++ (".selective-backup.".data ++ ts.data) := by
    show (base.data ++ ".selective-backup.".data) ++ ts.data = _
    rw [List.append_assoc]
  rw [h1, h2, startsWithData_append]
  rfl

/-- Membership through descending insertion. -/
theorem mem_insertByTimeDesc (b x : BackupFile) (l : List BackupFile) :
    x ∈ insertByTimeDesc b l ↔ x = b ∨ x ∈ l := by
  induction l with
  | nil => simp [insertByTimeDesc]
  | cons y ys ih =>
    by_cases h : timeKey y.time < timeKey b.time <;> simp [insertByTimeDesc, h, ih] <;> tauto

/-- Membership through the descending sort. -/
theorem mem_sortByTimeDesc (x : BackupFile) (l : List BackupFile) :
    x ∈ sortByTimeDesc l ↔ x ∈ l := by
  induction l with
  | nil => simp [sortByTimeDesc]
  | cons y ys ih =>
    show x ∈ insertByTimeDesc y (sortByTimeDesc ys) ↔ _
    simp [mem_insertByTimeDesc, ih]

/-- Descending insertion preserves the newest-first ordering. -/
theorem pairwise_insertByTimeDesc (b : BackupFile) (l : List BackupFile)
    (h : List.Pairwise descByTime l) :
    List.Pairwise descByTime (insertByTimeDesc b l) := by
  induction l with
  | nil => simp [insertByTimeDesc, List.pairwise_cons]
  | cons y ys ih =>
    rw [List.pairwise_cons] at h
    by_cases hlt : timeKey y.time < timeKey b.time
    · simp only [insertByTimeDesc, hlt, if_true, List.pairwise_cons]
      refine ⟨?_, h⟩
      intro z hz
      rcases List.mem_cons.mp hz with rfl | hz'
      · exact Nat.le_of_lt hlt
      · exact Nat.le_trans (h.1 z hz') (Nat.le_of_lt hlt)
    · simp only [insertByTimeDesc, hlt, if_false, List.pairwise_cons]
      refine ⟨?_, ih h.2⟩
      intro z hz
      rcases (mem_insertByTimeDesc b z ys).mp hz with rfl | hz'
      · exact Nat.le_of_not_lt hlt
      · exact h.1 z hz'

/-- The sorted catalog is newest-first. -/
theorem pairwise_sortByTimeDesc (l : List BackupFile) :
    List.Pairwise descByTime (sortByTimeDesc l) := by
  induction l with
  | nil => simp [sortByTimeDesc]
  | cons y ys ih => exact pairwise_insertByTimeDesc y (sortByTimeDesc ys) ih

/-- Descending insertion is a permutation of consing. -/
theorem perm_insertByTimeDesc (b : BackupFile) (l : List BackupFile) :
    List.Perm (insertByTimeDesc b l) (b :: l) := by
  induction l with
  | nil => exact List.Perm.refl _
  | cons y ys ih =>
    by_cases h : timeKey y.time < timeKey b.time
    · simp only [insertByTimeDesc, h, if_true]
      exact List.Perm.refl _
    · simp only [insertByTimeDesc, h, if_false]
      exact List.Perm.trans (List.Perm.cons y ih) (List.Perm.swap b y ys)

/-- Characterization of the per-entry catalog step. -/
theorem toBackup?_eq_some (base : String) (e : DirEntry) (b : BackupFile) :
    toBackup? base e = some b ↔
      e.isDir = false ∧ startsWithData (base ++ ".backup.").data e.name.data = true ∧
      parseBackupTime (e.name.data.drop (base ++ ".backup.").data.length) = some b.time ∧
      b.name = e.name := by
  rcases b with ⟨bn, bt⟩
  rcases e with ⟨en, ed⟩
  cases ed with
  | false =>
    by_cases hs : startsWithData (base ++ ".backup.").data en.data = true
    · rcases hp : parseBackupTime (en.data.drop (base ++ ".backup.").data.length) with _ | t <;>
        simp_all [toBackup?] <;> try tauto
    · simp_all [toBackup?]
  | true => simp [toBackup?]

/-- Claim C7 (confirmed).  `findBackups` returns exactly (as a permutation,
hence with the same members) the non-directory entries whose name starts
with `<base>.backup.` and whose remaining suffix parses under the fixed
`YYYYMMDD-HHMMSS` format, sorted by parsed timestamp descending; and no
returned backup ever bears a `<base>.selective-backup.<ts>` name, because
that name fails the prefix test. -/
theorem findBackups_spec :
    (∀ (base : String) (entries : List DirEntry) (b : BackupFile),
      b ∈ findBackups base entries ↔
        ∃ e ∈ entries, e.isDir = false ∧
          startsWithData (base ++ ".backup.").data e.name.data = true ∧
          parseBackupTime (e.name.data.drop (base ++ ".backup.").data.length) = some b.time ∧
          b.name = e.name)
    ∧ (∀ (base : String) (entries : List DirEntry),
        List.Perm (findBackups base entries) (entries.filterMap (toBackup? base)))
    ∧ (∀ (base : String) (entries : List DirEntry),
        List.Pairwise descByTime (findBackups base entries))
    ∧ (∀ (base ts : String) (entries : List DirEntry) (b : BackupFile),
        b ∈ findBackups base entries → b.name ≠ base ++ ".selective-backup." ++ ts) := by
  have hmem : ∀ (base : String) (entries : List DirEntry) (b : BackupFile),
      b ∈ findBackups base entries ↔
        ∃ e ∈ entries, e.isDir = false ∧
          startsWithData (base ++ ".backup.").data e.name.data = true ∧
          parseBackupTime (e.name.data.drop (base ++ ".backup.").data.length) = some b.time ∧
          b.name = e.name := by
    intro base entries b
    rw [show findBackups base entries = sortByTimeDesc (entries.filterMap (toBackup? base))
      from rfl, mem_sortByTimeDesc, List.mem_filterMap]
    constructor
    · rintro ⟨e, he, hb⟩
      exact ⟨e, he, (toBackup?_eq_some base e b).mp hb⟩
    · rintro ⟨e, he, hb⟩
      exact ⟨e, he, (toBackup?_eq_some base e b).mpr hb⟩
  refine ⟨hmem, ?_, ?_, ?_⟩
  · intro base entries
    show List.Perm (sortByTimeDesc (entries.filterMap (toBackup? base)))
      (entries.filterMap (toBackup? base))
    generalize entries.filterMap (toBackup? base) = l
    induction l with
    | nil => exact List.Perm.refl _
    | cons y ys ih =>
      show List.Perm (insertByTimeDesc y (sortByTimeDesc ys)) (y :: ys)
      exact List.Perm.trans (perm_insertByTimeDesc y (sortByTimeDesc ys)) (List.Perm.cons y ih)
  · intro base entries
    exact pairwise_sortByTimeDesc _
  · intro base ts entries b hb hname
    obtain ⟨e, _, _, hpre, _, hbn⟩ := (hmem base entries b).mp hb
    rw [← hbn, hname] at hpre
    rw [selective_name_no_backup_match base ts] at hpre
    exact Bool.false_ne_true hpre

/-! ### Pattern matcher lemmas -/

/-- The two star loops agree on newline-free input whenever their
continuations do. -/
theorem starLoop_eq_starLoopAny (f g : List Char → Bool)
    (hfg : ∀ t, Char.ofNat 10 ∉ t → f t = g t) :
    ∀ s, Char.ofNat 10 ∉ s → starLoop f s = starLoopAny g s := by
  intro s
  induction s with
  | nil =>
    intro _
    exact hfg [] (by simp)
  | cons d s' ihs =>
    intro hs
    have hs' : Char.ofNat 10 ∉ s' := fun h => hs (List.mem_cons_of_mem _ h)
    have hdne : d ≠ Char.ofNat 10 := fun h => hs (by rw [h]; exact List.mem_cons_self _ _)
    have hd : (d == Char.ofNat 10) = false := beq_eq_false_iff_ne.mpr hdne
    show (f (d :: s') || (!(d == Char.ofNat 10) && starLoop f s'))
      = (g (d :: s') || starLoopAny g s')
    rw [hd, hfg (d :: s') hs, ihs hs']
    simp

/-- On newline-free input the compiled matcher agrees with the claim's
any-character glob semantics, pattern character by pattern character. -/
theorem reMatch_eq_globSpec (p : List Char) :
    ∀ s : List Char, Char.ofNat 10 ∉ s → reMatch (p.map atomOf) s = globSpec p s := by
  induction p with
  | nil =>
    intro s _
    rfl
  | cons c cp ih =>
    by_cases hstar : c = '*'
    · subst hstar
      intro s hs
      simp only [List.map_cons, show atomOf '*' = GlobAtom.anyStar from rfl]
      show starLoop (reMatch (cp.map atomOf)) s = globSpec ('*' :: cp) s
      have hg : globSpec ('*' :: cp) s = starLoopAny (globSpec cp) s := by
        simp [globSpec]
      rw [hg]
      exact starLoop_eq_starLoopAny _ _ (fun t ht => ih t ht) s hs
    · by_cases hq : c = '?'
      · subst hq
        intro s hs
        simp only [List.map_cons, show atomOf '?' = GlobAtom.anyOne from rfl]
        cases s with
        | nil => rfl
        | cons d s' =>
          have hs' : Char.ofNat 10 ∉ s' := fun h => hs (List.mem_cons_of_mem _ h)
          have hdne : d ≠ Char.ofNat 10 := fun h => hs (by rw [h]; exact List.mem_cons_self _ _)
          have hd : (d == Char.ofNat 10) = false := beq_eq_false_iff_ne.mpr hdne
          show (!(d == Char.ofNat 10) && reMatch (cp.map atomOf) s')
            = globSpec ('?' :: cp) (d :: s')
          rw [hd, ih s' hs']
          simp [globSpec]
      · intro s hs
        have hatom : atomOf c = GlobAtom.lit c := by
          simp [atomOf, hstar, hq]
        simp only [List.map_cons, hatom]
        cases s with
        | nil => simp [reMatch, globSpec, hstar]
        | cons d s' =>
          have hs' : Char.ofNat 10 ∉ s' := fun h => hs (List.mem_cons_of_mem _ h)
          show (c == d && reMatch (cp.map atomOf) s') = globSpec (c :: cp) (d :: s')
          rw [ih s' hs']
          simp [globSpec, hstar, hq]

/-- Claim C9 (corrected).  For every pattern and every newline-free string,
the compiled anchored matcher accepts the string exactly when the claim's
glob semantics matches it; and the empty whitelist matches nothing.  (The
newline restriction is forced: RE2's `.`, which `?` and `*` compile to,
never matches a newline, so the claim's "any character" reading fails on
strings containing one.) -/
theorem compilePattern_glob_semantics :
    (∀ (p s : String), Char.ofNat 10 ∉ s.data →
      reMatch (compilePattern p) s.data = globSpec p.data s.data)
    ∧ (∀ s : String, matchesWhitelist [] s = false) := by
  constructor
  · intro p s hs
    exact reMatch_eq_globSpec p.data s.data hs
  · intro s
    rfl

/-- Claim C9 counterexample: the pattern `?` does not match the one-character
string consisting of a newline — the compiled regex `^.$` rejects it — while
the claim's "exactly one of any character" semantics accepts it. -/
theorem compilePattern_newline_gap :
    matchesWhitelist ["?"] (String.mk [Char.ofNat 10]) = false ∧
    globSpec "?".data (String.mk [Char.ofNat 10]).data = true := by
  constructor <;> decide

/-! ### Conflict-description string lemmas -/

/-- Character data of a string concatenation. -/
theorem data_append (s t : String) : (s ++ t).data = s.data ++ t.data := rfl

/-- Character data of the quote string. -/
theorem qs_data : qs.data = [qc] := rfl

/-- Context conflict descriptions determine the name. -/
theorem mkContextConflict_inj {a b : String} (h : mkContextConflict a = mkContextConflict b) :
    a = b := by
  have hd : (mkContextConflict a).data = (mkContextConflict b).data := congrArg String.data h
  simp only [mkContextConflict, data_append, qs_data] at hd
  exact String.ext (List.append_cancel_left (List.append_cancel_right (List.append_cancel_right hd)))

/-- Cluster conflict descriptions determine the name. -/
theorem mkClusterConflict_inj {a b : String} (h : mkClusterConflict a = mkClusterConflict b) :
    a = b := by
  have hd : (mkClusterConflict a).data = (mkClusterConflict b).data := congrArg String.data h
  simp only [mkClusterConflict, data_append, qs_data] at hd
  exact String.ext (List.append_cancel_left (List.append_cancel_right (List.append_cancel_right hd)))

/-- User conflict descriptions determine the name. -/
theorem mkUserConflict_inj {a b : String} (h : mkUserConflict a = mkUserConflict b) :
    a = b := by
  have hd : (mkUserConflict a).data = (mkUserConflict b).data := congrArg String.data h
  simp only [mkUserConflict, data_append, qs_data] at hd
  exact String.ext (List.append_cancel_left (List.append_cancel_right (List.append_cancel_right hd)))

/-- A context conflict description is never a cluster conflict description. -/
theorem mkContextConflict_ne_mkClusterConflict (a b : String) :
    mkContextConflict a ≠ mkClusterConflict b := by
  intro h
  have hd : (mkContextConflict a).data = (mkClusterConflict b).data := congrArg String.data h
  simp only [mkContextConflict, mkClusterConflict, data_append, qs_data,
    show "context ".data = ['c', 'o', 'n', 't', 'e', 'x', 't', ' '] from rfl,
    show "cluster ".data = ['c', 'l', 'u', 's', 't', 'e', 'r', ' '] from rfl,
    List.cons_append, List.nil_append] at hd
  injection hd with h1 h2
  injection h2 with h3 _
  exact absurd h3 (by decide)

/-- A context conflict description is never a user conflict description. -/
theorem mkContextConflict_ne_mkUserConflict (a b : String) :
    mkContextConflict a ≠ mkUserConflict b := by
  intro h
  have hd : (mkContextConflict a).data = (mkUserConflict b).data := congrArg String.data h
  simp only [mkContextConflict, mkUserConflict, data_append, qs_data,
    show "context ".data = ['c', 'o', 'n', 't', 'e', 'x', 't', ' '] from rfl,
    show "user ".data = ['u', 's', 'e', 'r', ' '] from rfl,
    List.cons_append, List.nil_append] at hd
  injection hd with h1 _
  exact absurd h1 (by decide)

/-- A cluster conflict description is never a user conflict description. -/
theorem mkClusterConflict_ne_mkUserConflict (a b : String) :
    mkClusterConflict a ≠ mkUserConflict b := by
  intro h
  have hd : (mkClusterConflict a).data = (mkUserConflict b).data := congrArg String.data h
  simp only [mkClusterConflict, mkUserConflict, data_append, qs_data,
    show "cluster ".data = ['c', 'l', 'u', 's', 't', 'e', 'r', ' '] from rfl,
    show "user ".data = ['u', 's', 'e', 'r', ' '] from rfl,
    List.cons_append, List.nil_append] at hd
  injection hd with h1 _
  exact absurd h1 (by decide)

/-! ### Map-lookup lemmas -/

/-- A successful last-entry-wins lookup comes from an entry of the list. -/
theorem lastWins_mem {α : Type} (n : String) (v : α) :
    ∀ l : List (String × α), lastWins n l = some v → (n, v) ∈ l := by
  intro l
  induction l with
  | nil => simp [lastWins]
  | cons kv rest ih =>
    rcases kv with ⟨k, w⟩
    simp only [lastWins]
    rcases h : lastWins n rest with _ | v'
    · by_cases hk : k = n
      · subst hk
        rw [if_pos rfl]
        intro h2
        injection h2 with h2
        subst h2
        exact List.mem_cons_self _ _
      · simp [hk]
    · simp only [Option.some.injEq]
      rintro rfl
      exact List.mem_cons_of_mem _ (ih h)

/-- Under unique keys, the lookup returns exactly the entry of the list. -/
theorem lastWins_eq_of_mem_nodup {α : Type} (n : String) (v : α) :
    ∀ l : List (String × α), (l.map Prod.fst).Nodup → (n, v) ∈ l →
      lastWins n l = some v := by
  intro l
  induction l with
  | nil => intro _ hm; cases hm
  | cons kv rest ih =>
    rcases kv with ⟨k, w⟩
    intro hn hm
    rw [List.map_cons, List.nodup_cons] at hn
    rcases List.mem_cons.mp hm with heq | hmem
    · injection heq with h1 h2
      subst h1
      subst h2
      have hnone : lastWins n rest = none := by
        rcases h : lastWins n rest with _ | v'
        · rfl
        · exact absurd (List.mem_map.mpr ⟨(n, v'), lastWins_mem n v' rest h, rfl⟩) hn.1
      simp [lastWins, hnone]
    · have hr : lastWins n rest = some v := ih hn.2 hmem
      simp [lastWins, hr]

/-- Under unique keys the lookup agrees with list membership. -/
theorem lastWins_iff_mem {α : Type} (n : String) (v : α) (l : List (String × α))
    (hn : (l.map Prod.fst).Nodup) : lastWins n l = some v ↔ (n, v) ∈ l :=
  ⟨lastWins_mem n v l, lastWins_eq_of_mem_nodup n v l hn⟩

/-! ### Conflict analysis lemmas -/

/-- Every emitted element of a conflict loop is a rendered description. -/
theorem conflictStep_shape {β : Type} (mk : String → String) (eqF : β → β → Bool)
    (lookup : String → Option β) (l : List (String × β)) (x : String)
    (h : x ∈ List.filterMap (conflictStep mk eqF lookup) l) : ∃ m, x = mk m := by
  obtain ⟨⟨m, bv⟩, _, heq⟩ := List.mem_filterMap.mp h
  simp only [conflictStep] at heq
  rcases hg : lookup m with _ | cv
  · rw [hg] at heq
    cases heq
  · rw [hg] at heq
    simp only [] at heq
    rcases he : eqF cv bv
    · rw [he] at heq
      simp only [Bool.not_false, if_true, Option.some.injEq] at heq
      exact ⟨m, heq.symm⟩
    · rw [he] at heq
      simp at heq

/-- Membership characterization of one conflict loop, under unique names on
the backup side. -/
theorem conflictStep_mem_iff {β : Type} (mk : String → String)
    (hmk : ∀ a b : String, mk a = mk b → a = b)
    (eqF : β → β → Bool) (lookup : String → Option β)
    (l : List (String × β)) (hn : (l.map Prod.fst).Nodup) (n : String) :
    mk n ∈ List.filterMap (conflictStep mk eqF lookup) l ↔
      ∃ cv bv, lookup n = some cv ∧ lastWins n l = some bv ∧ eqF cv bv = false := by
  constructor
  · intro h
    obtain ⟨⟨m, bv⟩, hmem, heq⟩ := List.mem_filterMap.mp h
    simp only [conflictStep] at heq
    rcases hg : lookup m with _ | cv
    · rw [hg] at heq
      cases heq
    · rw [hg] at heq
      simp only [] at heq
      rcases he : eqF cv bv
      · rw [he] at heq
        simp only [Bool.not_false, if_true, Option.some.injEq] at heq
        obtain rfl := hmk _ _ heq
        exact ⟨cv, bv, hg, lastWins_eq_of_mem_nodup _ _ _ hn hmem, he⟩
      · rw [he] at heq
        simp at heq
  · rintro ⟨cv, bv, hcv, hbv, hne⟩
    refine List.mem_filterMap.mpr ⟨(n, bv), lastWins_mem n bv l hbv, ?_⟩
    simp [conflictStep, hcv, hne]

/-- A conflict loop comparing a document's entities against themselves emits
nothing, given unique names. -/
theorem conflictStep_refl {β : Type} (mk : String → String) (eqF : β → β → Bool)
    (heqF : ∀ v, eqF v v = true) (l : List (String × β))
    (hn : (l.map Prod.fst).Nodup) :
    List.filterMap (conflictStep mk eqF (fun n => lastWins n l)) l = [] := by
  refine List.filterMap_eq_nil_iff.mpr fun p hp => ?_
  have hself : lastWins p.1 l = some p.2 := lastWins_eq_of_mem_nodup _ _ _ hn hp
  simp only [conflictStep]
  rw [hself]
  simp only []
  rw [heqF p.2]
  simp

/-- Field-wise context equality is reflexive. -/
theorem contextsEqual_refl (x : KContext) : contextsEqual x x = true := by
  simp [contextsEqual]

/-- Field-wise cluster equality is reflexive. -/
theorem clustersEqual_refl (x : KCluster) : clustersEqual x x = true := by
  simp [clustersEqual]

/-- Field-wise user equality is reflexive. -/
theorem usersEqual_refl (x : KUser) : usersEqual x x = true := by
  simp [usersEqual]

/-- All unique-name hypotheses of one document. -/
def NamesNodup (c : Config) : Prop :=
  (c.contexts.map NamedContext.name).Nodup ∧
  (c.clusters.map NamedCluster.name).Nodup ∧
  (c.users.map NamedUser.name).Nodup

/-- `analyzeRestoreConflicts` as three pair-based conflict loops. -/
theorem analyzeRestoreConflicts_as_steps (cur bak : Config) :
    analyzeRestoreConflicts cur bak
      = List.filterMap (conflictStep mkContextConflict contextsEqual cur.getContext)
          (bak.contexts.map fun nc => (nc.name, nc.context))
        ++ List.filterMap (conflictStep mkClusterConflict clustersEqual cur.getCluster)
          (bak.clusters.map fun nc => (nc.name, nc.cluster))
        ++ List.filterMap (conflictStep mkUserConflict usersEqual cur.getUser)
          (bak.users.map fun nu => (nu.name, nu.user)) := by
  rfl

/-- Claim C2 (corrected).  Under unique entity names per collection —
the data model's "name (unique key)" invariant — a conflict description for
a name is reported iff the name resolves in both documents and the two
entities differ under the code's field-wise comparison (for users, the seven
string credential fields); and analyzing a document against itself reports
nothing.  An entity resolving in only one document never yields a
conflict (its lookup on the other side is `none`). -/
theorem analyzeRestoreConflicts_characterization (cur bak : Config)
    (hcur : NamesNodup cur) (hbak : NamesNodup bak) :
    (∀ n : String, mkContextConflict n ∈ analyzeRestoreConflicts cur bak ↔
      ∃ cc bc, cur.getContext n = some cc ∧ bak.getContext n = some bc ∧
        contextsEqual cc bc = false)
    ∧ (∀ n : String, mkClusterConflict n ∈ analyzeRestoreConflicts cur bak ↔
      ∃ ccl bcl, cur.getCluster n = some ccl ∧ bak.getCluster n = some bcl ∧
        clustersEqual ccl bcl = false)
    ∧ (∀ n : String, mkUserConflict n ∈ analyzeRestoreConflicts cur bak ↔
      ∃ cu bu, cur.getUser n = some cu ∧ bak.getUser n = some bu ∧
        usersEqual cu bu = false)
    ∧ analyzeRestoreConflicts cur cur = [] := by
  have hn1 : ((bak.contexts.map fun nc => (nc.name, nc.context)).map Prod.fst).Nodup := by
    rw [List.map_map]
    exact hbak.1
  have hn2 : ((bak.clusters.map fun nc => (nc.name, nc.cluster)).map Prod.fst).Nodup := by
    rw [List.map_map]
    exact hbak.2.1
  have hn3 : ((bak.users.map fun nu => (nu.name, nu.user)).map Prod.fst).Nodup := by
    rw [List.map_map]
    exact hbak.2.2
  refine ⟨?_, ?_, ?_, ?_⟩
  · intro n
    rw [analyzeRestoreConflicts_as_steps]
    constructor
    · intro h
      rcases List.mem_append.mp h with h12 | h3
      · rcases List.mem_append.mp h12 with h1 | h2
        · exact (conflictStep_mem_iff mkContextConflict (fun a b => mkContextConflict_inj)
            contextsEqual cur.getContext _ hn1 n).mp h1
        · obtain ⟨m, hm⟩ := conflictStep_shape mkClusterConflict clustersEqual
            cur.getCluster _ _ h2
          exact absurd hm (mkContextConflict_ne_mkClusterConflict n m)
      · obtain ⟨m, hm⟩ := conflictStep_shape mkUserConflict usersEqual cur.getUser _ _ h3
        exact absurd hm (mkContextConflict_ne_mkUserConflict n m)
    · intro hex
      refine List.mem_append.mpr (Or.inl (List.mem_append.mpr (Or.inl ?_)))
      exact (conflictStep_mem_iff mkContextConflict (fun a b => mkContextConflict_inj)
        contextsEqual cur.getContext _ hn1 n).mpr hex
  · intro n
    rw [analyzeRestoreConflicts_as_steps]
    constructor
    · intro h
      rcases List.mem_append.mp h with h12 | h3
      · rcases List.mem_append.mp h12 with h1 | h2
        · obtain ⟨m, hm⟩ := conflictStep_shape mkContextConflict contextsEqual
            cur.getContext _ _ h1
          exact absurd hm.symm (mkContextConflict_ne_mkClusterConflict m n)
        · exact (conflictStep_mem_iff mkClusterConflict (fun a b => mkClusterConflict_inj)
            clustersEqual cur.getCluster _ hn2 n).mp h2
      · obtain ⟨m, hm⟩ := conflictStep_shape mkUserConflict usersEqual cur.getUser _ _ h3
        exact absurd hm (mkClusterConflict_ne_mkUserConflict n m)
    · intro hex
      refine List.mem_append.mpr (Or.inl (List.mem_append.mpr (Or.inr ?_)))
      exact (conflictStep_mem_iff mkClusterConflict (fun a b => mkClusterConflict_inj)
        clustersEqual cur.getCluster _ hn2 n).mpr hex
  · intro n
    rw [analyzeRestoreConflicts_as_steps]
    constructor
    · intro h
      rcases List.mem_append.mp h with h12 | h3
      · rcases List.mem_append.mp h12 with h1 | h2
        · obtain ⟨m, hm⟩ := conflictStep_shape mkContextConflict contextsEqual
            cur.getContext _ _ h1
          exact absurd hm.symm (mkContextConflict_ne_mkUserConflict m n)
        · obtain ⟨m, hm⟩ := conflictStep_shape mkClusterConflict clustersEqual
            cur.getCluster _ _ h2
          exact absurd hm.symm (mkClusterConflict_ne_mkUserConflict m n)
      · exact (conflictStep_mem_iff mkUserConflict (fun a b => mkUserConflict_inj)
          usersEqual cur.getUser _ hn3 n).mp h3
    · intro hex
      refine List.mem_append.mpr (Or.inr ?_)
      exact (conflictStep_mem_iff mkUserConflict (fun a b => mkUserConflict_inj)
        usersEqual cur.getUser _ hn3 n).mpr hex
  · rw [analyzeRestoreConflicts_as_steps]
    have hc1 : ((cur.contexts.map fun nc => (nc.name, nc.context)).map Prod.fst).Nodup := by
      rw [List.map_map]
      exact hcur.1
    have hc2 : ((cur.clusters.map fun nc => (nc.name, nc.cluster)).map Prod.fst).Nodup := by
      rw [List.map_map]
      exact hcur.2.1
    have hc3 : ((cur.users.map fun nu => (nu.name, nu.user)).map Prod.fst).Nodup := by
      rw [List.map_map]
      exact hcur.2.2
    have e1 := conflictStep_refl mkContextConflict contextsEqual contextsEqual_refl
      (cur.contexts.map fun nc => (nc.name, nc.context)) hc1
    have e2 := conflictStep_refl mkClusterConflict clustersEqual clustersEqual_refl
      (cur.clusters.map fun nc => (nc.name, nc.cluster)) hc2
    have e3 := conflictStep_refl mkUserConflict usersEqual usersEqual_refl
      (cur.users.map fun nu => (nu.name, nu.user)) hc3
    rw [show (conflictStep mkContextConflict contextsEqual cur.getContext)
        = conflictStep mkContextConflict contextsEqual
            (fun n => lastWins n (cur.contexts.map fun nc => (nc.name, nc.context))) from rfl,
      show (conflictStep mkClusterConflict clustersEqual cur.getCluster)
        = conflictStep mkClusterConflict clustersEqual
            (fun n => lastWins n (cur.clusters.map fun nc => (nc.name, nc.cluster))) from rfl,
      show (conflictStep mkUserConflict usersEqual cur.getUser)
        = conflictStep mkUserConflict usersEqual
            (fun n => lastWins n (cur.users.map fun nu => (nu.name, nu.user))) from rfl,
      e1, e2, e3]
    rfl

/-- Document with two same-named contexts whose payloads differ — a shape the
loader accepts, since contexts are a YAML sequence with no uniqueness
check. -/
def c2Dup : Config :=
  ⟨"v1", "Config", "",
   [⟨"a", ⟨"c1", "u", ""⟩⟩, ⟨"a", ⟨"c2", "u", ""⟩⟩],
   [⟨"c1", ⟨"s1", "", "", false⟩⟩, ⟨"c2", ⟨"s2", "", "", false⟩⟩],
   [⟨"u", ⟨none, none, "", "", "", "", "t", "", ""⟩⟩]⟩

/-- Claim C2 counterexample: on a loadable document with a duplicated context
name, `analyzeRestoreConflicts(X, X)` is not empty — the first duplicate is
compared against the last-entry-wins map value of the second — refuting the
claim's universal self-analysis and iff statements for all successfully
loaded documents. -/
theorem analyzeRestoreConflicts_self_not_empty :
    analyzeRestoreConflicts c2Dup c2Dup ≠ [] := by
  decide

/-- Witness for the characterization: at concrete documents the amended claim
reports exactly the differing user and nothing on self-analysis. -/
theorem analyzeRestoreConflicts_characterization_witness :
    mkUserConflict "uu" ∈ analyzeRestoreConflicts c1Cur c1Bak ∧
    analyzeRestoreConflicts c1Cur c1Cur = [] := by
  constructor
  · exact ((analyzeRestoreConflicts_characterization c1Cur c1Bak
      ⟨by decide, by decide, by decide⟩ ⟨by decide, by decide, by decide⟩).2.2.1 "uu").mpr
      ⟨⟨none, none, "", "", "", "", "tok1", "", ""⟩,
       ⟨none, none, "", "", "", "", "tok2", "", ""⟩,
       by decide, by decide, by decide⟩
  · exact (analyzeRestoreConflicts_characterization c1Cur c1Cur
      ⟨by decide, by decide, by decide⟩ ⟨by decide, by decide, by decide⟩).2.2.2

/-! ### Conflict-description parsing lemmas

`createSelectiveBackup` re-parses the rendered conflict descriptions with
`strings.Contains`/`strings.Index`.  The format `kind 'name' (reason)` is
unambiguous when the name contains no single quote (the closing delimiter)
and no space (so no name can end in `context ` or `cluster ` and smuggle a
dispatch marker past a closing quote). -/

/-- A name parses back unambiguously when it holds no quote and no space. -/
def goodName (n : String) : Prop :=
  qc ∉ n.data ∧ ' ' ∉ n.data

/-- A conflict list as produced by `analyzeRestoreConflicts` over clean
names: every element is a rendered description of one entity kind. -/
def wellFormedConflict (s : String) : Prop :=
  ∃ n, goodName n ∧
    (s = mkContextConflict n ∨ s = mkClusterConflict n ∨ s = mkUserConflict n)

/-- A successful containment test exhibits an infix occurrence. -/
theorem infix_of_strContains : ∀ s sub : List Char, strContains s sub = true →
    sub <:+: s := by
  intro s
  induction s with
  | nil =>
    intro sub h
    simp only [strContains, firstIndex] at h
    rcases hp : sub.isPrefixOf ([] : List Char)
    · rw [hp] at h
      simp at h
    · exact (List.isPrefixOf_iff_prefix.mp hp).isInfix
  | cons c rest ih =>
    intro sub h
    simp only [strContains, firstIndex] at h
    rcases hp : sub.isPrefixOf (c :: rest)
    · rw [hp] at h
      simp only [Bool.false_eq_true, if_false] at h
      have h' : strContains rest sub = true := by
        rcases hfi : firstIndex rest sub with _ | i
        · rw [hfi] at h
          simp at h
        · simp [strContains, hfi]
      exact List.infix_cons (ih sub h')
    · exact (List.isPrefixOf_iff_prefix.mp hp).isInfix

/-- A present prefix makes the containment test succeed at index zero. -/
theorem strContains_of_isPrefixOf (s sub : List Char) (h : sub.isPrefixOf s = true) :
    strContains s sub = true := by
  cases s <;> simp [strContains, firstIndex, h]

/-- First quotes of equal quote-delimited lists align. -/
theorem firstQuoteAlign : ∀ x u y v : List Char, qc ∉ x → qc ∉ u →
    x ++ qc :: y = u ++ qc :: v → x = u ∧ y = v := by
  intro x
  induction x with
  | nil =>
    intro u y v _ hu h
    cases u with
    | nil =>
      injection h with _ h2
      exact ⟨rfl, h2⟩
    | cons a u' =>
      injection h with h1 _
      exact absurd (h1 ▸ List.mem_cons_self a u') hu
  | cons a x' ih =>
    intro u y v hx hu h
    cases u with
    | nil =>
      injection h with h1 _
      exact absurd (h1 ▸ List.mem_cons_self a x') hx
    | cons b u' =>
      injection h with h1 h2
      have hx' : qc ∉ x' := fun hm => hx (List.mem_cons_of_mem _ hm)
      have hu' : qc ∉ u' := fun hm => hu (List.mem_cons_of_mem _ hm)
      obtain ⟨he, hy⟩ := ih u' y v hx' hu' h2
      exact ⟨by rw [h1, he], hy⟩

/-- Split a list at its first quote. -/
theorem exists_first_quote_split : ∀ l : List Char, qc ∈ l →
    ∃ l₁ l₂, l = l₁ ++ qc :: l₂ ∧ qc ∉ l₁ := by
  intro l
  induction l with
  | nil => intro h; cases h
  | cons c rest ih =>
    intro h
    by_cases hc : c = qc
    · exact ⟨[], rest, by rw [hc]; rfl, by simp⟩
    · have : qc ∈ rest := by
        rcases List.mem_cons.mp h with h1 | h2
        · exact absurd h1.symm hc
        · exact h2
      obtain ⟨l₁, l₂, heq, hnotin⟩ := ih this
      exact ⟨c :: l₁, l₂, by rw [heq]; rfl, by
        intro hm
        rcases List.mem_cons.mp hm with h1 | h2
        · exact hc h1.symm
        · exact hnotin h2⟩

/-- A quote-free marker ending in a space is no suffix of `A ++ qc :: B` when
`A` is quote-free and `B` space-free. -/
theorem not_suffix_quote_mid {m A B : List Char} (hm : qc ∉ m) (hA : qc ∉ A)
    (hsp : ' ' ∈ m) (hB : ' ' ∉ B) : ¬ m <:+ (A ++ qc :: B) := by
  rintro ⟨t, ht⟩
  by_cases hq : qc ∈ t
  · obtain ⟨t₁, t₂, rfl, ht₁⟩ := exists_first_quote_split t hq
    rw [List.append_assoc, List.cons_append] at ht
    obtain ⟨_, h2⟩ := firstQuoteAlign t₁ A (t₂ ++ m) B ht₁ hA ht
    exact hB (h2 ▸ List.mem_append_right t₂ hsp)
  · have : qc ∈ t ++ m := ht ▸ List.mem_append_right A (List.mem_cons_self qc B)
    rcases List.mem_append.mp this with h1 | h2
    · exact hq h1
    · exact hm h2

/-- An occurrence of a quote-terminated marker inside a two-quote list puts
the marker body right before one of the two quotes. -/
theorem infix_marker_cases {m A B C : List Char} (hm : qc ∉ m) (hA : qc ∉ A)
    (hB : qc ∉ B) (hC : qc ∉ C)
    (h : (m ++ [qc]) <:+: (A ++ qc :: (B ++ qc :: C))) :
    m <:+ A ∨ m <:+ (A ++ qc :: B) := by
  obtain ⟨s', t', hst⟩ := h
  have hst1 : s' ++ (m ++ qc :: t') = A ++ qc :: (B ++ qc :: C) := by
    rw [← hst]
    simp [List.append_assoc]
  by_cases hq : qc ∈ s'
  · obtain ⟨s₁, s₂, rfl, hs₁⟩ := exists_first_quote_split s' hq
    have hst2 : s₁ ++ qc :: (s₂ ++ (m ++ qc :: t')) = A ++ qc :: (B ++ qc :: C) := by
      rw [← hst1]
      simp [List.append_assoc]
    obtain ⟨hs₁A, hst3⟩ := firstQuoteAlign s₁ A _ _ hs₁ hA hst2
    by_cases hq2 : qc ∈ s₂
    · obtain ⟨s₃, s₄, rfl, hs₃⟩ := exists_first_quote_split s₂ hq2
      have hst4 : s₃ ++ qc :: (s₄ ++ (m ++ qc :: t')) = B ++ qc :: C := by
        rw [← hst3]
        simp [List.append_assoc]
      obtain ⟨_, hst5⟩ := firstQuoteAlign s₃ B _ _ hs₃ hB hst4
      have : qc ∈ C :=
        hst5 ▸ List.mem_append_right s₄ (List.mem_append_right m (List.mem_cons_self qc t'))
      exact absurd this hC
    · have hqm : qc ∉ s₂ ++ m := by
        intro hmem
        rcases List.mem_append.mp hmem with h1 | h2
        · exact hq2 h1
        · exact hm h2
      have hst4 : (s₂ ++ m) ++ qc :: t' = B ++ qc :: C := by
        rw [← hst3]
        simp [List.append_assoc]
      obtain ⟨hBe, _⟩ := firstQuoteAlign (s₂ ++ m) B _ _ hqm hB hst4
      refine Or.inr (List.IsSuffix.trans ⟨s₂, hBe⟩ ?_)
      rw [show A ++ qc :: B = (A ++ [qc]) ++ B by simp]
      exact List.suffix_append _ _
  · have hqm : qc ∉ s' ++ m := by
      intro hmem
      rcases List.mem_append.mp hmem with h1 | h2
      · exact hq h1
      · exact hm h2
    have hst2 : (s' ++ m) ++ qc :: t' = A ++ qc :: (B ++ qc :: C) := by
      rw [← hst1]
      simp [List.append_assoc]
    obtain ⟨hAe, _⟩ := firstQuoteAlign (s' ++ m) A _ _ hqm hA hst2
    exact Or.inl ⟨s', hAe⟩

/-- Normal form of a context conflict description's characters. -/
theorem mkContextConflict_data (n : String) :
    (mkContextConflict n).data
      = "context ".data ++ qc :: (n.data ++ qc :: " (different configuration)".data) := by
  simp [mkContextConflict, data_append, qs_data, List.append_assoc]

/-- Normal form of a cluster conflict description's characters. -/
theorem mkClusterConflict_data (n : String) :
    (mkClusterConflict n).data
      = "cluster ".data ++ qc :: (n.data ++ qc :: " (different server/auth)".data) := by
  simp [mkClusterConflict, data_append, qs_data, List.append_assoc]

/-- Normal form of a user conflict description's characters. -/
theorem mkUserConflict_data (n : String) :
    (mkUserConflict n).data
      = "user ".data ++ qc :: (n.data ++ qc :: " (different credentials)".data) := by
  simp [mkUserConflict, data_append, qs_data, List.append_assoc]

/-- A context description passes the `context '` containment test. -/
theorem ctxMarker_in_context (n : String) :
    strContains (mkContextConflict n).data ("context ".data ++ [qc]) = true := by
  apply strContains_of_isPrefixOf
  rw [mkContextConflict_data]
  exact List.isPrefixOf_iff_prefix.mpr
    ⟨n.data ++ qc :: " (different configuration)".data, by simp [List.append_assoc]⟩

/-- A cluster description passes the `cluster '` containment test. -/
theorem clMarker_in_cluster (n : String) :
    strContains (mkClusterConflict n).data ("cluster ".data ++ [qc]) = true := by
  apply strContains_of_isPrefixOf
  rw [mkClusterConflict_data]
  exact List.isPrefixOf_iff_prefix.mpr
    ⟨n.data ++ qc :: " (different server/auth)".data, by simp [List.append_assoc]⟩

/-- A user description passes the `user '` containment test. -/
theorem userMarker_in_user (n : String) :
    strContains (mkUserConflict n).data ("user ".data ++ [qc]) = true := by
  apply strContains_of_isPrefixOf
  rw [mkUserConflict_data]
  exact List.isPrefixOf_iff_prefix.mpr
    ⟨n.data ++ qc :: " (different credentials)".data, by simp [List.append_assoc]⟩

/-- A cluster description with a clean name never contains `context '`. -/
theorem ctxMarker_not_in_cluster (n : String) (hg : goodName n) :
    strContains (mkClusterConflict n).data ("context ".data ++ [qc]) = false := by
  rcases h : strContains (mkClusterConflict n).data ("context ".data ++ [qc])
  · rfl
  · exfalso
    have hinf := infix_of_strContains _ _ h
    rw [mkClusterConflict_data] at hinf
    rcases infix_marker_cases (by decide) (by decide) hg.1 (by decide) hinf with hs | hs
    · exact absurd (hs.eq_of_length (by decide)) (by decide)
    · exact not_suffix_quote_mid (by decide) (by decide) (by decide) hg.2 hs

/-- A user description with a clean name never contains `context '`. -/
theorem ctxMarker_not_in_user (n : String) (hg : goodName n) :
    strContains (mkUserConflict n).data ("context ".data ++ [qc]) = false := by
  rcases h : strContains (mkUserConflict n).data ("context ".data ++ [qc])
  · rfl
  · exfalso
    have hinf := infix_of_strContains _ _ h
    rw [mkUserConflict_data] at hinf
    rcases infix_marker_cases (by decide) (by decide) hg.1 (by decide) hinf with hs | hs
    · exact absurd hs.length_le (by decide)
    · exact not_suffix_quote_mid (by decide) (by decide) (by decide) hg.2 hs

/-- A user description with a clean name never contains `cluster '`. -/
theorem clMarker_not_in_user (n : String) (hg : goodName n) :
    strContains (mkUserConflict n).data ("cluster ".data ++ [qc]) = false := by
  rcases h : strContains (mkUserConflict n).data ("cluster ".data ++ [qc])
  · rfl
  · exfalso
    have hinf := infix_of_strContains _ _ h
    rw [mkUserConflict_data] at hinf
    rcases infix_marker_cases (by decide) (by decide) hg.1 (by decide) hinf with hs | hs
    · exact absurd hs.length_le (by decide)
    · exact not_suffix_quote_mid (by decide) (by decide) (by decide) hg.2 hs

/-- A present prefix puts the first occurrence at index zero. -/
theorem firstIndex_zero_of_isPrefixOf (s sub : List Char) (h : sub.isPrefixOf s = true) :
    firstIndex s sub = some 0 := by
  cases s <;> simp [firstIndex, h]

/-- First quote of `x ++ qc :: y` with quote-free `x` sits at `x.length`. -/
theorem firstIndex_quote (y : List Char) : ∀ x : List Char, qc ∉ x →
    firstIndex (x ++ qc :: y) [qc] = some x.length := by
  intro x
  induction x with
  | nil =>
    intro _
    simp [firstIndex, List.isPrefixOf]
  | cons a xs ih =>
    intro hx
    have hne : (qc == a) = false :=
      beq_eq_false_iff_ne.mpr fun h => hx (by rw [h]; exact List.mem_cons_self a xs)
    have hx' : qc ∉ xs := fun hm => hx (List.mem_cons_of_mem _ hm)
    simp [firstIndex, List.isPrefixOf, hne, ih hx']

/-- Extraction recovers a quote-free context name. -/
theorem extract_context (n : String) (hq : qc ∉ n.data) :
    extractNameFromConflict (mkContextConflict n) "context" = n := by
  have hmark : ("context".data ++ [' ', qc]) = "context ".data ++ [qc] := by decide
  have h1 : firstIndex (mkContextConflict n).data ("context".data ++ [' ', qc]) = some 0 := by
    apply firstIndex_zero_of_isPrefixOf
    rw [hmark, mkContextConflict_data]
    exact List.isPrefixOf_iff_prefix.mpr
      ⟨n.data ++ qc :: " (different configuration)".data, by simp [List.append_assoc]⟩
  have hdrop : (mkContextConflict n).data.drop (0 + ("context".data ++ [' ', qc]).length)
      = n.data ++ qc :: " (different configuration)".data := by
    rw [mkContextConflict_data,
      show (0 + ("context".data ++ [' ', qc]).length)
        = ("context ".data ++ [qc]).length from by decide,
      show "context ".data ++ qc :: (n.data ++ qc :: " (different configuration)".data)
        = ("context ".data ++ [qc]) ++ (n.data ++ qc :: " (different configuration)".data)
        from by simp [List.append_assoc]]
    exact List.drop_left _ _
  unfold extractNameFromConflict
  rw [h1]
  simp only []
  rw [hdrop, firstIndex_quote _ n.data hq]
  simp only []
  rw [List.take_left]

/-- Extraction recovers a quote-free cluster name. -/
theorem extract_cluster (n : String) (hq : qc ∉ n.data) :
    extractNameFromConflict (mkClusterConflict n) "cluster" = n := by
  have hmark : ("cluster".data ++ [' ', qc]) = "cluster ".data ++ [qc] := by decide
  have h1 : firstIndex (mkClusterConflict n).data ("cluster".data ++ [' ', qc]) = some 0 := by
    apply firstIndex_zero_of_isPrefixOf
    rw [hmark, mkClusterConflict_data]
    exact List.isPrefixOf_iff_prefix.mpr
      ⟨n.data ++ qc :: " (different server/auth)".data, by simp [List.append_assoc]⟩
  have hdrop : (mkClusterConflict n).data.drop (0 + ("cluster".data ++ [' ', qc]).length)
      = n.data ++ qc :: " (different server/auth)".data := by
    rw [mkClusterConflict_data,
      show (0 + ("cluster".data ++ [' ', qc]).length)
        = ("cluster ".data ++ [qc]).length from by decide,
      show "cluster ".data ++ qc :: (n.data ++ qc :: " (different server/auth)".data)
        = ("cluster ".data ++ [qc]) ++ (n.data ++ qc :: " (different server/auth)".data)
        from by simp [List.append_assoc]]
    exact List.drop_left _ _
  unfold extractNameFromConflict
  rw [h1]
  simp only []
  rw [hdrop, firstIndex_quote _ n.data hq]
  simp only []
  rw [List.take_left]

/-- Extraction recovers a quote-free user name. -/
theorem extract_user (n : String) (hq : qc ∉ n.data) :
    extractNameFromConflict (mkUserConflict n) "user" = n := by
  have hmark : ("user".data ++ [' ', qc]) = "user ".data ++ [qc] := by decide
  have h1 : firstIndex (mkUserConflict n).data ("user".data ++ [' ', qc]) = some 0 := by
    apply firstIndex_zero_of_isPrefixOf
    rw [hmark, mkUserConflict_data]
    exact List.isPrefixOf_iff_prefix.mpr
      ⟨n.data ++ qc :: " (different credentials)".data, by simp [List.append_assoc]⟩
  have hdrop : (mkUserConflict n).data.drop (0 + ("user".data ++ [' ', qc]).length)
      = n.data ++ qc :: " (different credentials)".data := by
    rw [mkUserConflict_data,
      show (0 + ("user".data ++ [' ', qc]).length)
        = ("user ".data ++ [qc]).length from by decide,
      show "user ".data ++ qc :: (n.data ++ qc :: " (different credentials)".data)
        = ("user ".data ++ [qc]) ++ (n.data ++ qc :: " (different credentials)".data)
        from by simp [List.append_assoc]]
    exact List.drop_left _ _
  unfold extractNameFromConflict
  rw [h1]
  simp only []
  rw [hdrop, firstIndex_quote _ n.data hq]
  simp only []
  rw [List.take_left]

/-- Rendered context descriptions compare like their names. -/
theorem mkContextConflict_eq_iff (a b : String) :
    mkContextConflict a = mkContextConflict b ↔ a = b :=
  ⟨mkContextConflict_inj, fun h => by rw [h]⟩

/-- Rendered cluster descriptions compare like their names. -/
theorem mkClusterConflict_eq_iff (a b : String) :
    mkClusterConflict a = mkClusterConflict b ↔ a = b :=
  ⟨mkClusterConflict_inj, fun h => by rw [h]⟩

/-- Rendered user descriptions compare like their names. -/
theorem mkUserConflict_eq_iff (a b : String) :
    mkUserConflict a = mkUserConflict b ↔ a = b :=
  ⟨mkUserConflict_inj, fun h => by rw [h]⟩

/-- Opposite orientation of the context/cluster disequality. -/
theorem mkClusterConflict_ne_mkContextConflict (a b : String) :
    mkClusterConflict a ≠ mkContextConflict b :=
  fun h => mkContextConflict_ne_mkClusterConflict b a h.symm

/-- Opposite orientation of the context/user disequality. -/
theorem mkUserConflict_ne_mkContextConflict (a b : String) :
    mkUserConflict a ≠ mkContextConflict b :=
  fun h => mkContextConflict_ne_mkUserConflict b a h.symm

/-- Opposite orientation of the cluster/user disequality. -/
theorem mkUserConflict_ne_mkClusterConflict (a b : String) :
    mkUserConflict a ≠ mkClusterConflict b :=
  fun h => mkClusterConflict_ne_mkUserConflict b a h.symm

/-- Classification step on a context description: record the context name and
its referenced cluster and user (when the context resolves). -/
theorem addConflict_context (cur : Config) (acc : List String × List String × List String)
    (n : String) (hg : goodName n) :
    addConflict cur acc (mkContextConflict n)
      = match cur.getContext n with
        | some ctx => (n :: acc.1, ctx.cluster :: acc.2.1, ctx.user :: acc.2.2)
        | none => (n :: acc.1, acc.2.1, acc.2.2) := by
  unfold addConflict
  rw [ctxMarker_in_context n, extract_context n hg.1]
  simp only [reduceIte]

/-- Classification step on a cluster description: record the cluster name. -/
theorem addConflict_cluster (cur : Config) (acc : List String × List String × List String)
    (n : String) (hg : goodName n) :
    addConflict cur acc (mkClusterConflict n) = (acc.1, n :: acc.2.1, acc.2.2) := by
  unfold addConflict
  rw [ctxMarker_not_in_cluster n hg, clMarker_in_cluster n, extract_cluster n hg.1]
  simp only [Bool.false_eq_true, reduceIte]

/-- Classification step on a user description: record the user name. -/
theorem addConflict_user (cur : Config) (acc : List String × List String × List String)
    (n : String) (hg : goodName n) :
    addConflict cur acc (mkUserConflict n) = (acc.1, acc.2.1, n :: acc.2.2) := by
  unfold addConflict
  rw [ctxMarker_not_in_user n hg, clMarker_not_in_user n hg, userMarker_in_user n,
    extract_user n hg.1]
  simp only [Bool.false_eq_true, reduceIte]

/-- Membership in the conflicting-context name set collected by the
classification fold. -/
theorem foldl_addConflict_ctx (cur : Config) :
    ∀ cs : List String, (∀ s ∈ cs, wellFormedConflict s) →
      ∀ (acc : List String × List String × List String) (x : String),
      (x ∈ (cs.foldl (addConflict cur) acc).1 ↔ x ∈ acc.1 ∨ mkContextConflict x ∈ cs) := by
  intro cs
  induction cs with
  | nil =>
    intro _ acc x
    simp
  | cons s cs' ih =>
    intro hwf acc x
    rw [List.foldl_cons, ih (fun t ht => hwf t (List.mem_cons_of_mem s ht))]
    obtain ⟨m, hm, hshape⟩ := hwf s (List.mem_cons_self s cs')
    rcases hshape with rfl | rfl | rfl
    · have hstep := addConflict_context cur acc m hm
      rcases hgc : cur.getContext m with _ | ctx <;> rw [hgc] at hstep <;>
        simp only [] at hstep <;> rw [hstep] <;>
        simp [List.mem_cons, mkContextConflict_eq_iff] <;> tauto
    · rw [addConflict_cluster cur acc m hm]
      simp [List.mem_cons, mkContextConflict_ne_mkClusterConflict]
    · rw [addConflict_user cur acc m hm]
      simp [List.mem_cons, mkContextConflict_ne_mkUserConflict]

/-- Membership in the conflicting-cluster name set collected by the
classification fold: flagged cluster names plus clusters referenced by a
resolving flagged context. -/
theorem foldl_addConflict_cluster (cur : Config) :
    ∀ cs : List String, (∀ s ∈ cs, wellFormedConflict s) →
      ∀ (acc : List String × List String × List String) (x : String),
      (x ∈ (cs.foldl (addConflict cur) acc).2.1 ↔ x ∈ acc.2.1 ∨
        mkClusterConflict x ∈ cs ∨
        ∃ m ctx, mkContextConflict m ∈ cs ∧ cur.getContext m = some ctx ∧
          ctx.cluster = x) := by
  intro cs
  induction cs with
  | nil =>
    intro _ acc x
    simp
  | cons s cs' ih =>
    intro hwf acc x
    rw [List.foldl_cons, ih (fun t ht => hwf t (List.mem_cons_of_mem s ht))]
    obtain ⟨m, hm, hshape⟩ := hwf s (List.mem_cons_self s cs')
    rcases hshape with rfl | rfl | rfl
    · have hstep := addConflict_context cur acc m hm
      rcases hgc : cur.getContext m with _ | ctx <;> rw [hgc] at hstep <;>
        simp only [] at hstep <;> rw [hstep] <;>
        simp [List.mem_cons, mkClusterConflict_ne_mkContextConflict,
          mkContextConflict_eq_iff, hgc] <;> tauto
    · rw [addConflict_cluster cur acc m hm]
      simp [List.mem_cons, mkClusterConflict_eq_iff,
        mkContextConflict_ne_mkClusterConflict]
      tauto
    · rw [addConflict_user cur acc m hm]
      simp [List.mem_cons, mkClusterConflict_ne_mkUserConflict,
        mkContextConflict_ne_mkUserConflict]

/-- Membership in the conflicting-user name set collected by the
classification fold: flagged user names plus users referenced by a
resolving flagged context. -/
theorem foldl_addConflict_user (cur : Config) :
    ∀ cs : List String, (∀ s ∈ cs, wellFormedConflict s) →
      ∀ (acc : List String × List String × List String) (x : String),
      (x ∈ (cs.foldl (addConflict cur) acc).2.2 ↔ x ∈ acc.2.2 ∨
        mkUserConflict x ∈ cs ∨
        ∃ m ctx, mkContextConflict m ∈ cs ∧ cur.getContext m = some ctx ∧
          ctx.user = x) := by
  intro cs
  induction cs with
  | nil =>
    intro _ acc x
    simp
  | cons s cs' ih =>
    intro hwf acc x
    rw [List.foldl_cons, ih (fun t ht => hwf t (List.mem_cons_of_mem s ht))]
    obtain ⟨m, hm, hshape⟩ := hwf s (List.mem_cons_self s cs')
    rcases hshape with rfl | rfl | rfl
    · have hstep := addConflict_context cur acc m hm
      rcases hgc : cur.getContext m with _ | ctx <;> rw [hgc] at hstep <;>
        simp only [] at hstep <;> rw [hstep] <;>
        simp [List.mem_cons, mkUserConflict_ne_mkContextConflict,
          mkContextConflict_eq_iff, hgc] <;> tauto
    · rw [addConflict_cluster cur acc m hm]
      simp [List.mem_cons, mkUserConflict_ne_mkClusterConflict,
        mkContextConflict_ne_mkClusterConflict]
    · rw [addConflict_user cur acc m hm]
      simp [List.mem_cons, mkUserConflict_eq_iff, mkContextConflict_ne_mkUserConflict]
      tauto

/-- Under unique context names, map lookup and list membership agree. -/
theorem getContext_iff_mem (cur : Config)
    (hn : (cur.contexts.map NamedContext.name).Nodup) (m : String) (ctx : KContext) :
    cur.getContext m = some ctx ↔ (⟨m, ctx⟩ : NamedContext) ∈ cur.contexts := by
  unfold Config.getContext
  rw [lastWins_iff_mem m ctx _ (by rw [List.map_map]; exact hn)]
  constructor
  · intro h
    obtain ⟨nc, hnc, heq⟩ := List.mem_map.mp h
    injection heq with h1 h2
    rcases nc with ⟨ncn, ncc⟩
    subst h1
    subst h2
    exact hnc
  · intro h
    exact List.mem_map.mpr ⟨⟨m, ctx⟩, h, rfl⟩

/-- Claim C3 (corrected).  With well-formed conflict descriptions over clean
names and unique context names in the current document, the selective backup
contains exactly: the contexts bearing a conflicting-context name; the
clusters bearing a conflicting-cluster name or referenced by an included
conflicting context; the users likewise; and consequently every included
conflicting context's referenced cluster and user, when present in the
current document, appear in the backup (no dangling reference). -/
theorem createSelectiveBackup_characterization (cur : Config) (conflicts : List String)
    (hwf : ∀ s ∈ conflicts, wellFormedConflict s)
    (hn : (cur.contexts.map NamedContext.name).Nodup) :
    (∀ nc : NamedContext, nc ∈ (createSelectiveBackupConfig cur conflicts).contexts ↔
      nc ∈ cur.contexts ∧ mkContextConflict nc.name ∈ conflicts)
    ∧ (∀ ncl : NamedCluster, ncl ∈ (createSelectiveBackupConfig cur conflicts).clusters ↔
      ncl ∈ cur.clusters ∧ (mkClusterConflict ncl.name ∈ conflicts ∨
        ∃ nc ∈ cur.contexts, mkContextConflict nc.name ∈ conflicts ∧
          nc.context.cluster = ncl.name))
    ∧ (∀ nu : NamedUser, nu ∈ (createSelectiveBackupConfig cur conflicts).users ↔
      nu ∈ cur.users ∧ (mkUserConflict nu.name ∈ conflicts ∨
        ∃ nc ∈ cur.contexts, mkContextConflict nc.name ∈ conflicts ∧
          nc.context.user = nu.name))
    ∧ (∀ nc ∈ (createSelectiveBackupConfig cur conflicts).contexts,
        (∀ ncl ∈ cur.clusters, ncl.name = nc.context.cluster →
          ncl ∈ (createSelectiveBackupConfig cur conflicts).clusters)
        ∧ (∀ nu ∈ cur.users, nu.name = nc.context.user →
          nu ∈ (createSelectiveBackupConfig cur conflicts).users)) := by
  have hctxmem : ∀ x : String,
      x ∈ (conflictSets cur conflicts).1 ↔ mkContextConflict x ∈ conflicts := by
    intro x
    rw [show conflictSets cur conflicts = conflicts.foldl (addConflict cur) ([], [], [])
      from rfl]
    rw [foldl_addConflict_ctx cur conflicts hwf ([], [], []) x]
    simp
  have hclmem : ∀ x : String,
      x ∈ (conflictSets cur conflicts).2.1 ↔ mkClusterConflict x ∈ conflicts ∨
        ∃ m ctx, mkContextConflict m ∈ conflicts ∧ cur.getContext m = some ctx ∧
          ctx.cluster = x := by
    intro x
    rw [show conflictSets cur conflicts = conflicts.foldl (addConflict cur) ([], [], [])
      from rfl]
    rw [foldl_addConflict_cluster cur conflicts hwf ([], [], []) x]
    simp
  have humem : ∀ x : String,
      x ∈ (conflictSets cur conflicts).2.2 ↔ mkUserConflict x ∈ conflicts ∨
        ∃ m ctx, mkContextConflict m ∈ conflicts ∧ cur.getContext m = some ctx ∧
          ctx.user = x := by
    intro x
    rw [show conflictSets cur conflicts = conflicts.foldl (addConflict cur) ([], [], [])
      from rfl]
    rw [foldl_addConflict_user cur conflicts hwf ([], [], []) x]
    simp
  have hclconv : ∀ x : String,
      (∃ m ctx, mkContextConflict m ∈ conflicts ∧ cur.getContext m = some ctx ∧
        ctx.cluster = x) ↔
      (∃ nc ∈ cur.contexts, mkContextConflict nc.name ∈ conflicts ∧
        nc.context.cluster = x) := by
    intro x
    constructor
    · rintro ⟨m, ctx, hmc, hg, hcl⟩
      exact ⟨⟨m, ctx⟩, (getContext_iff_mem cur hn m ctx).mp hg, hmc, hcl⟩
    · rintro ⟨nc, hnc, hmc, hcl⟩
      refine ⟨nc.name, nc.context, hmc, ?_, hcl⟩
      exact (getContext_iff_mem cur hn nc.name nc.context).mpr (by rcases nc with ⟨a, b⟩; exact hnc)
  have huconv : ∀ x : String,
      (∃ m ctx, mkContextConflict m ∈ conflicts ∧ cur.getContext m = some ctx ∧
        ctx.user = x) ↔
      (∃ nc ∈ cur.contexts, mkContextConflict nc.name ∈ conflicts ∧
        nc.context.user = x) := by
    intro x
    constructor
    · rintro ⟨m, ctx, hmc, hg, hcl⟩
      exact ⟨⟨m, ctx⟩, (getContext_iff_mem cur hn m ctx).mp hg, hmc, hcl⟩
    · rintro ⟨nc, hnc, hmc, hcl⟩
      refine ⟨nc.name, nc.context, hmc, ?_, hcl⟩
      exact (getContext_iff_mem cur hn nc.name nc.context).mpr (by rcases nc with ⟨a, b⟩; exact hnc)
  have hc : ∀ nc : NamedContext,
      nc ∈ (createSelectiveBackupConfig cur conflicts).contexts ↔
        nc ∈ cur.contexts ∧ mkContextConflict nc.name ∈ conflicts := by
    intro nc
    rw [show (createSelectiveBackupConfig cur conflicts).contexts
      = cur.contexts.filter (fun nc => (conflictSets cur conflicts).1.contains nc.name)
      from rfl, List.mem_filter]
    constructor
    · rintro ⟨h1, h2⟩
      exact ⟨h1, (hctxmem nc.name).mp (by simpa using h2)⟩
    · rintro ⟨h1, h2⟩
      exact ⟨h1, by simpa using (hctxmem nc.name).mpr h2⟩
  have hcl : ∀ ncl : NamedCluster,
      ncl ∈ (createSelectiveBackupConfig cur conflicts).clusters ↔
        ncl ∈ cur.clusters ∧ (mkClusterConflict ncl.name ∈ conflicts ∨
          ∃ nc ∈ cur.contexts, mkContextConflict nc.name ∈ conflicts ∧
            nc.context.cluster = ncl.name) := by
    intro ncl
    rw [show (createSelectiveBackupConfig cur conflicts).clusters
      = cur.clusters.filter (fun x => (conflictSets cur conflicts).2.1.contains x.name)
      from rfl, List.mem_filter]
    constructor
    · rintro ⟨h1, h2⟩
      have h3 := (hclmem ncl.name).mp (by simpa using h2)
      exact ⟨h1, h3.imp id (hclconv ncl.name).mp⟩
    · rintro ⟨h1, h2⟩
      refine ⟨h1, ?_⟩
      have h3 : ncl.name ∈ (conflictSets cur conflicts).2.1 :=
        (hclmem ncl.name).mpr (h2.imp id (hclconv ncl.name).mpr)
      simpa using h3
  have hu : ∀ nu : NamedUser,
      nu ∈ (createSelectiveBackupConfig cur conflicts).users ↔
        nu ∈ cur.users ∧ (mkUserConflict nu.name ∈ conflicts ∨
          ∃ nc ∈ cur.contexts, mkContextConflict nc.name ∈ conflicts ∧
            nc.context.user = nu.name) := by
    intro nu
    rw [show (createSelectiveBackupConfig cur conflicts).users
      = cur.users.filter (fun x => (conflictSets cur conflicts).2.2.contains x.name)
      from rfl, List.mem_filter]
    constructor
    · rintro ⟨h1, h2⟩
      have h3 := (humem nu.name).mp (by simpa using h2)
      exact ⟨h1, h3.imp id (huconv nu.name).mp⟩
    · rintro ⟨h1, h2⟩
      refine ⟨h1, ?_⟩
      have h3 : nu.name ∈ (conflictSets cur conflicts).2.2 :=
        (humem nu.name).mpr (h2.imp id (huconv nu.name).mpr)
      simpa using h3
  refine ⟨hc, hcl, hu, ?_⟩
  intro nc hncmem
  obtain ⟨h1, h2⟩ := (hc nc).mp hncmem
  constructor
  · intro ncl hnclmem hname
    exact (hcl ncl).mpr ⟨hnclmem, Or.inr ⟨nc, h1, h2, hname.symm⟩⟩
  · intro nu hnumem hname
    exact (hu nu).mpr ⟨hnumem, Or.inr ⟨nc, h1, h2, hname.symm⟩⟩

/-- Document with two same-named contexts referencing different clusters. -/
def c3Dup : Config :=
  ⟨"v1", "Config", "",
   [⟨"a", ⟨"c1", "u", ""⟩⟩, ⟨"a", ⟨"c2", "u", ""⟩⟩],
   [⟨"c1", ⟨"s1", "", "", false⟩⟩, ⟨"c2", ⟨"s2", "", "", false⟩⟩],
   [⟨"u", ⟨none, none, "", "", "", "", "t", "", ""⟩⟩]⟩

/-- Claim C3 counterexample: with a duplicated context name, the selective
backup includes the first context entry (name match) but only the cluster of
the last-entry-wins map value — the included context referencing cluster c1
is left dangling, refuting the claimed "exactly ... referenced by an
included conflicting context" closure for arbitrary documents. -/
theorem createSelectiveBackup_dup_dangling :
    (⟨"a", ⟨"c1", "u", ""⟩⟩ : NamedContext)
        ∈ (createSelectiveBackupConfig c3Dup [mkContextConflict "a"]).contexts
    ∧ (⟨"c1", ⟨"s1", "", "", false⟩⟩ : NamedCluster) ∈ c3Dup.clusters
    ∧ (⟨"c1", ⟨"s1", "", "", false⟩⟩ : NamedCluster)
        ∉ (createSelectiveBackupConfig c3Dup [mkContextConflict "a"]).clusters := by
  decide

/-- Scenario document: one context over one cluster and user, plus an extra
user that conflicts. -/
def c3W : Config :=
  ⟨"v1", "Config", "ctx1",
   [⟨"ctx1", ⟨"cl1", "u1", ""⟩⟩],
   [⟨"cl1", ⟨"s", "", "", false⟩⟩],
   [⟨"u1", ⟨none, none, "", "", "", "", "t1", "", ""⟩⟩,
    ⟨"u2", ⟨none, none, "", "", "", "", "t2", "", ""⟩⟩]⟩

/-- Witness for the selective-backup characterization: a lone user conflict
selects exactly that user and no context. -/
theorem createSelectiveBackup_characterization_witness :
    (⟨"u2", ⟨none, none, "", "", "", "", "t2", "", ""⟩⟩ : NamedUser)
        ∈ (createSelectiveBackupConfig c3W [mkUserConflict "u2"]).users
    ∧ (⟨"ctx1", ⟨"cl1", "u1", ""⟩⟩ : NamedContext)
        ∉ (createSelectiveBackupConfig c3W [mkUserConflict "u2"]).contexts := by
  have h := createSelectiveBackup_characterization c3W [mkUserConflict "u2"]
    (by
      intro s hs
      rw [List.mem_singleton] at hs
      subst hs
      exact ⟨"u2", ⟨by decide, by decide⟩, Or.inr (Or.inr rfl)⟩)
    (by decide)
  constructor
  · exact (h.2.2.1 ⟨"u2", ⟨none, none, "", "", "", "", "t2", "", ""⟩⟩).mpr
      ⟨by decide, Or.inl (by decide)⟩
  · intro hmem
    have h2 := ((h.1 ⟨"ctx1", ⟨"cl1", "u1", ""⟩⟩).mp hmem).2
    exact absurd h2 (by decide)

end KubectxManager
